import Mathlib

set_option maxRecDepth 100000

/-!
Verification development for the Evidence Retrieval Engine of
src/lib/policySearch.ts (the third revision in that file, the one with the
in-memory analysis cache, page chunking and category routing — source lines
530-949).  External collaborators (the Inference Service behind the deepseek
client, and the Corpus Store behind supabase) are modelled as oracles:

  * an inference call is identified by the payload the source interpolates
    into its prompt (the question, the policy display name, the page label,
    and the length-bounded page text); its response is modelled by the
    outcome of the source's response handling — missing content
    (response.choices[0]?.message?.content undefined), a JSON.parse failure,
    or a parsed verdict object;
  * the Corpus Store is a function from the selected category list to the
    ordered document list it returns;
  * Date.now() is an explicit clock argument, one reading per search
    (calls within one search share it; distinct invocations pass their own).

JavaScript strings are embedded as Lean String (substring, toLowerCase and
trim are given explicit definitions over the character list); JavaScript
numbers carrying confidences are embedded as rationals; JavaScript truthiness
tests on optional fields are spelled out at each use site.  Concurrent batch
execution (Promise.all over batch.map(processPolicy)) is modelled faithfully
to the event loop: every member of a batch performs its cache read
synchronously before the first await, so all members of one batch read the
batch-start cache; their writes are then applied in order, and Promise.all
delivers results indexed by position, independent of completion order (the
completion-order model is made explicit further below for the ordering
claims).
-/

namespace PolicySearch

/-! ## JavaScript string operations -/

/-- Embedding of s.substring(0, n) (JS, on code units; ASCII-faithful). -/
def jsTake (n : Nat) (s : String) : String := String.mk (s.data.take n)

/-- Embedding of s.toLowerCase(). -/
def jsToLower (s : String) : String := String.mk (s.data.map Char.toLower)

/-- Embedding of s.trim(): whitespace stripped from both ends. -/
def jsTrim (s : String) : String :=
  String.mk (((s.data.dropWhile Char.isWhitespace).reverse.dropWhile Char.isWhitespace).reverse)

/-- Embedding of the JS truthiness test on a string (empty string is falsy). -/
def jsIsEmpty (s : String) : Bool := s.data.isEmpty

/-- Boolean substring test: does pat occur contiguously inside s?  Used only
in theorem statements (the source never checks this; that is the point of
claim C7). -/
def containsSeq (pat s : List Char) : Bool := s.tails.any (fun t => pat.isPrefixOf t)

/-! ## Data model (source lines 544-586) -/

/-- PolicyMatch of the source (the evidence record inside a SearchResult).
confidence is kept as the possibly-absent JSON field it is copied from. -/
structure PolicyMatch where
  policyName : String
  policyNumber : String
  page : String
  excerpt : String
  confidence : Option ℚ
  category : String
deriving DecidableEq

inductive SearchStatus where
  | met
  | notMet
  | underReview
deriving DecidableEq

/-- SearchResult of the source: status 'met' | 'not-met' | 'under-review'
with optional evidence. -/
structure SearchResult where
  status : SearchStatus
  evidence : Option PolicyMatch
deriving DecidableEq

/-- PolicyDocument row as selected from supabase (file_size is never read by
the engine and is omitted). -/
structure PolicyDocument where
  id : String
  policy_number : String
  policy_name : String
  policy_category : String
  content : String
deriving DecidableEq

/-- CachedResult of the source (the value type of policyAnalysisCache). -/
structure CachedResult where
  found : Bool
  excerpt : Option String
  confidence : Option ℚ
  reasoning : Option String
  pageNumber : Option String
  timestamp : Int
deriving DecidableEq

/-- CACHE_TTL = 1000 * 60 * 60 (one hour, in milliseconds). -/
def CACHE_TTL : Int := 1000 * 60 * 60

/-- The process-wide Map of the source, as a partial function from key
strings to entries. -/
def Cache : Type := String → Option CachedResult

/-- getCacheKey: question.substring(0, 100).toLowerCase().trim() + ':' + policyId. -/
def getCacheKey (question : String) (policyId : String) : String :=
  jsTrim (jsToLower (jsTake 100 question)) ++ ":" ++ policyId

/-- Map.set on the cache (overwrite at one key). -/
def cacheSet (cache : Cache) (k : String) (v : CachedResult) : Cache :=
  fun k2 => if k2 = k then some v else cache k2

/-- Applying the (at most one) cache write a policy evaluation performs. -/
def applyWrite (cache : Cache) : Option (String × CachedResult) → Cache
  | none => cache
  | some (k, v) => cacheSet cache k v

/-! ## Page Segmenter: parsePolicyIntoPages (source lines 588-630)

The regex /Page (\d+) of (\d+)/gi is embedded as an explicit left-to-right
scanner over the character list: at each index it tries to read the literal
"Page " caseless, a maximal digit run, the literal " of " caseless, and a
second maximal digit run; on a hit it records (index, first digits, second
digits) and resumes past the whole match, on a miss it advances one
character (maximal-munch on the digit runs coincides with the regex's
greedy \d+, since a digit run cannot overlap the following literal). -/

structure PageChunk where
  pageNumber : String
  content : String
  startIndex : Nat
deriving DecidableEq

/-- Caseless match of a literal at the head of the input; returns the rest. -/
def matchCaseless : List Char → List Char → Option (List Char)
  | [], cs => some cs
  | _ :: _, [] => none
  | l :: ls, c :: cs => if c.toLower = l.toLower then matchCaseless ls cs else none

/-- Try to read one "Page N of M" marker at the head of cs; on success the
two digit runs and the input's remainder past the whole match (the match
itself spans 5 + d1.length + 4 + d2.length characters, see
tryMarker_consumes). -/
def tryMarker (cs : List Char) : Option (List Char × List Char × List Char) :=
  match matchCaseless ['P','a','g','e',' '] cs with
  | none => none
  | some cs1 =>
    let d1 := cs1.takeWhile Char.isDigit
    if d1.isEmpty then none else
    match matchCaseless [' ','o','f',' '] (cs1.dropWhile Char.isDigit) with
    | none => none
    | some cs2 =>
      let d2 := cs2.takeWhile Char.isDigit
      if d2.isEmpty then none else
      some (d1, d2, cs2.dropWhile Char.isDigit)

/-- Left-to-right scan producing all matches of the marker regex, each with
its start index; on a hit the scan resumes right after the whole match
(the regex's lastIndex), on a miss one character later.  fuel bounds the
recursion; every step consumes at least one character, so fuel = input
length is always enough (scanMarkersFuel_stable below). -/
def scanMarkersFuel : Nat → List Char → Nat → List (Nat × List Char × List Char)
  | 0, _, _ => []
  | _ + 1, [], _ => []
  | fuel + 1, c :: rest, pos =>
    match tryMarker (c :: rest) with
    | some (d1, d2, after) =>
      (pos, d1, d2) :: scanMarkersFuel fuel after (pos + (5 + d1.length + 4 + d2.length))
    | none => scanMarkersFuel fuel rest (pos + 1)

/-- Array.from(content.matchAll(pageRegex)) with indices. -/
def scanMarkers (cs : List Char) : List (Nat × List Char × List Char) :=
  scanMarkersFuel cs.length cs 0

/-- Chunk label: pageNum + " of " + totalPages. -/
def labelOf (d1 d2 : List Char) : String := String.mk d1 ++ " of " ++ String.mk d2

/-- The chunk-building loop of parsePolicyIntoPages: each chunk spans from
its marker's index to the next marker's index (or to the end), via
content.substring(startIndex, endIndex).  The source computes endIndex as
nextMatch.index || content.length, with JS falsiness on 0, embedded here
verbatim. -/
def buildChunks (cs : List Char) : List (Nat × List Char × List Char) → List PageChunk
  | [] => []
  | (p, d1, d2) :: rest =>
    let e := match rest with
      | [] => cs.length
      | (q, _, _) :: _ => if q = 0 then cs.length else q
    { pageNumber := labelOf d1 d2,
      content := String.mk ((cs.drop p).take (e - p)),
      startIndex := p } :: buildChunks cs rest

/-- parsePolicyIntoPages: no marker gives the whole content as one chunk
labelled '1'; otherwise one chunk per marker. -/
def parsePolicyIntoPages (content : String) : List PageChunk :=
  let ms := scanMarkers content.data
  if ms.isEmpty then
    [{ pageNumber := "1", content := content, startIndex := 0 }]
  else
    buildChunks content.data ms

/-! ## Category Router: selectRelevantCategories (source lines 632-705) -/

/-- CATEGORY_DESCRIPTIONS of the source, as (code, description) pairs. -/
def CATEGORY_DESCRIPTIONS : List (String × String) :=
  [("AA", "Administration - General administrative policies, glossaries, definitions"),
   ("CMC", "CalMediConnect - California-specific Medi-Cal and Medicare dual eligible programs"),
   ("DD", "Developmental Disabilities - Policies for members with developmental disabilities"),
   ("EE", "Eligibility & Enrollment - Member eligibility criteria, enrollment processes, disenrollment"),
   ("FF", "Financial - Billing, claims, payment, cost-sharing, copayments"),
   ("GA", "General Administration - Organizational structure, governance, compliance"),
   ("GG", "General - Broad range of general policies and procedures"),
   ("HH", "Health Services - Medical services, care coordination, hospice, palliative care, treatment authorization"),
   ("MA", "Medi-Cal - California Medicaid program policies, benefits, covered services"),
   ("PA", "Provider Administration - Provider network, credentialing, contracts, directory")]

/-- The fixed category codes (the keys of CATEGORY_DESCRIPTIONS). -/
def CATEGORY_KEYS : List String := CATEGORY_DESCRIPTIONS.map (fun kv => kv.1)

/-- Outcome of the category-selection inference call, as the source's
response handling sees it: missing content, a JSON.parse failure after
fence-stripping, a parsed value that is not an array, or a parsed array
(whose elements the source never validates). -/
inductive CatResponse where
  | noContent
  | malformed
  | notArray
  | arrayVal (cats : List String)
deriving DecidableEq

/-- selectRelevantCategories, given the outcome of its one inference call:
a parsed non-empty array is returned as-is (unvalidated); every other
outcome, including the catch around JSON.parse, yields the fallback
['GG', 'HH', 'MA']. -/
def selectRelevantCategories (resp : CatResponse) : List String :=
  match resp with
  | .noContent => ["GG", "HH", "MA"]
  | .malformed => ["GG", "HH", "MA"]
  | .notArray => ["GG", "HH", "MA"]
  | .arrayVal cats => if cats.length > 0 then cats else ["GG", "HH", "MA"]

/-! ## Document Matcher: processPolicy (source lines 759-871) -/

/-- The verdict object JSON.parse yields for one page evaluation; every
field beyond found is optional in the source's handling (it only ever
tests found and confidence and copies excerpt/reasoning through). -/
structure ParsedVerdict where
  found : Bool
  excerpt : Option String
  confidence : Option ℚ
  reasoning : Option String
deriving DecidableEq

/-- Outcome of one page-evaluation inference call as the source's handling
sees it. -/
inductive PageResponse where
  | noContent
  | malformed
  | parsed (v : ParsedVerdict)
deriving DecidableEq

/-- The two external collaborators issuing text for the engine: category
routing and per-page matching.  A page call is identified by the payload
interpolated into its prompt: question, policy display name, page label,
and the (possibly truncated) page text. -/
structure Oracle where
  category : String → CatResponse
  page : String → String → String → String → PageResponse

/-- The source's 0.6 confidence threshold, as the reduced rational 3/5
(built with the raw constructor so the kernel can evaluate comparisons
against it; confThreshold_eq below checks it equals 6/10). -/
def confThreshold : ℚ := Rat.mk' 3 5 (by decide) (by decide)

/-- JS test result.found && result.confidence > 0.6 on the confidence part
(undefined > 0.6 is false). -/
def confPasses : Option ℚ → Bool
  | some c => decide (confThreshold < c)
  | none => false

/-- JS test cached.confidence && cached.confidence > 0.6 (truthiness of the
number, then the comparison). -/
def cachedConfPasses : Option ℚ → Bool
  | some c => (!decide (c = 0)) && decide (confThreshold < c)
  | none => false

/-- Page text bound: content longer than 15000 is cut and marked, source
lines 785-788. -/
def truncatePage (s : String) : String :=
  if s.length > 15000 then jsTake 15000 s ++ "\n...(content truncated)" else s

/-- Outcome of the for-loop over a document's page chunks, with the number
of inference calls it issued: a qualifying verdict (cached with the page
label), exhaustion of all pages, or an abort — the JSON.parse exception
that the enclosing catch turns into a null for the whole document. -/
inductive PageOutcome where
  | found (r : CachedResult) (calls : Nat)
  | exhausted (calls : Nat)
  | aborted (calls : Nat)
deriving DecidableEq

/-- The page loop of processPolicy (source lines 783-858): missing response
content continues with the next page; a JSON.parse failure raises, aborting
the document; a parsed verdict qualifies when found && confidence > 0.6. -/
def pageLoop (question : String) (o : Oracle) (now : Int) (policy : PolicyDocument) :
    List PageChunk → Nat → PageOutcome
  | [], calls => .exhausted calls
  | page :: rest, calls =>
    match o.page question policy.policy_name page.pageNumber (truncatePage page.content) with
    | .noContent => pageLoop question o now policy rest (calls + 1)
    | .malformed => .aborted (calls + 1)
    | .parsed v =>
      if v.found && confPasses v.confidence then
        .found { found := true, excerpt := v.excerpt, confidence := v.confidence,
                 reasoning := v.reasoning, pageNumber := some page.pageNumber,
                 timestamp := now } (calls + 1)
      else pageLoop question o now policy rest (calls + 1)

/-- The fresh-evaluation path of processPolicy (cache miss or stale entry):
run the page loop and return its outcome together with the cache write the
source performs — the positive entry on a find, the negative
{found: false, timestamp} on exhaustion, and no write at all when the loop
aborted on a parse failure (the catch skips the caching). -/
def processFresh (question : String) (o : Oracle) (now : Int) (policy : PolicyDocument)
    (cacheKey : String) :
    Option (PolicyDocument × CachedResult) × Option (String × CachedResult) × Nat :=
  match pageLoop question o now policy (parsePolicyIntoPages policy.content) 0 with
  | .found r calls => (some (policy, r), some (cacheKey, r), calls)
  | .exhausted calls =>
    (none,
     some (cacheKey,
           ({ found := false, excerpt := none, confidence := none, reasoning := none,
              pageNumber := none, timestamp := now } : CachedResult)),
     calls)
  | .aborted calls => (none, none, calls)

/-- processPolicy: returns (the match or null, the cache write it performs,
the number of inference calls it issued).  Guard: !policy.content ||
policy.content.length < 100 returns null before touching cache or service.
Then the cache is consulted (a fresh hit answers without any call; a
qualifying cached verdict is returned, any other fresh entry yields null);
on a miss or a stale entry the page loop runs, and its outcome — positive
or negative — is written back, except when the loop aborted on a parse
failure, where the catch returns null without caching. -/
def processPolicy (question : String) (o : Oracle) (now : Int) (policy : PolicyDocument)
    (cache : Cache) :
    Option (PolicyDocument × CachedResult) × Option (String × CachedResult) × Nat :=
  if policy.content.data.isEmpty || decide (policy.content.length < 100) then (none, none, 0)
  else
    let cacheKey := getCacheKey question policy.id
    match cache cacheKey with
    | some cached =>
      if now - cached.timestamp < CACHE_TTL then
        if cached.found && cachedConfPasses cached.confidence then
          (some (policy, cached), none, 0)
        else (none, none, 0)
      else processFresh question o now policy cacheKey
    | none => processFresh question o now policy cacheKey

/-! ## Corpus Scanner: searchPoliciesForEvidence (source lines 740-918) -/

/-- A per-document evaluation step against a given cache state (the shape of
processPolicy once question, oracle and clock are fixed). -/
def StepFn : Type :=
  PolicyDocument → Cache →
    Option (PolicyDocument × CachedResult) × Option (String × CachedResult) × Nat

/-- One batch: batch.map(processPolicy) under Promise.all.  Every member
reads the batch-start cache (its cache read is synchronous, before its first
await); the members' writes are then applied in order; results keep batch
positions.  Also returns the calls issued by the whole batch. -/
def runBatch (step : StepFn) (batch : List PolicyDocument) (cache : Cache) :
    List (Option (PolicyDocument × CachedResult)) × Cache × Nat :=
  let outs := batch.map (fun p => step p cache)
  (outs.map (fun out => out.1),
   outs.foldl (fun c out => applyWrite c out.2.1) cache,
   (outs.map (fun out => out.2.2)).sum)

/-- The 'met' SearchResult built from a match (source lines 889-906),
including the JS truthiness fallbacks on pageNumber and excerpt. -/
def mkMetResult (m : PolicyDocument × CachedResult) : SearchResult :=
  { status := .met,
    evidence := some {
      policyName := m.1.policy_name,
      policyNumber := m.1.policy_number,
      page := match m.2.pageNumber with
        | some pn => if jsIsEmpty pn then "Various" else "Page " ++ pn
        | none => "Various",
      excerpt := match m.2.excerpt with
        | some s => if jsIsEmpty s then "Evidence found in policy document" else s
        | none => "Evidence found in policy document",
      confidence := m.2.confidence,
      category := m.1.policy_category } }

/-- What the batch loop carries out: the result, the final cache, the calls
issued by document evaluation, and policiesSearched. -/
structure LoopOut where
  result : SearchResult
  cache : Cache
  calls : Nat
  searched : Nat

/-- The batch loop of searchPoliciesForEvidence (source lines 873-912):
batches run one after the other, each fully evaluated in parallel, then its
results scanned in document order; the first match returns 'met', and a loop
that exhausts every batch without one returns 'not-met'. -/
def searchBatchLoop (step : StepFn) :
    List (List PolicyDocument) → Cache → Nat → Nat → LoopOut
  | [], cache, calls, searched =>
    ⟨{ status := .notMet, evidence := none }, cache, calls, searched⟩
  | batch :: rest, cache, calls, searched =>
    let out := runBatch step batch cache
    match out.1.findSome? id with
    | some m => ⟨mkMetResult m, out.2.1, calls + out.2.2, searched + batch.length⟩
    | none => searchBatchLoop step rest out.2.1 (calls + out.2.2) (searched + batch.length)

/-- policies.slice(i, i + n) grouping for i = 0, n, 2n, ...; fuel bounds the
recursion and input length is always enough for n ≥ 1. -/
def chunksOfFuel : Nat → Nat → List PolicyDocument → List (List PolicyDocument)
  | 0, _, _ => []
  | _ + 1, _, [] => []
  | fuel + 1, n, x :: rest => (x :: rest).take n :: chunksOfFuel fuel n ((x :: rest).drop n)

/-- The batch partition of the candidate list (batchSize 25 in the source). -/
def chunksOf (n : Nat) (xs : List PolicyDocument) : List (List PolicyDocument) :=
  chunksOfFuel xs.length n xs

/-- What searchPoliciesForEvidence delivers: the SearchResult, the cache
after the search, the total Inference Service calls it issued (the one
category-routing call plus every page evaluation), and policiesSearched. -/
structure SearchOut where
  result : SearchResult
  cache : Cache
  calls : Nat
  searched : Nat

/-- searchPoliciesForEvidence: route categories (one inference call), fetch
the candidate documents for them from the store, return 'under-review' on an
empty candidate set, otherwise run the batch loop over batches of 25.  The
store is the Corpus Store oracle (getAllPolicyDocuments with the category
filter); the outer catch of the source is unreachable in this total model,
every modelled failure being handled on its own path. -/
def searchPoliciesForEvidence (o : Oracle) (store : List String → List PolicyDocument)
    (now : Int) (question : String) (cache0 : Cache) : SearchOut :=
  let selectedCategories := selectRelevantCategories (o.category question)
  let policies := store selectedCategories
  if policies.length = 0 then
    ⟨{ status := .underReview, evidence := none }, cache0, 1, 0⟩
  else
    let lo := searchBatchLoop (fun p c => processPolicy question o now p c)
      (chunksOf 25 policies) cache0 0 0
    ⟨lo.result, lo.cache, 1 + lo.calls, lo.searched⟩

/-- The same batch procession without the early exit: the in-order list of
every document's evaluation result, caches threaded exactly as the loop
threads them.  Used to state exhaustion (claim C3): the loop answers
'not-met' exactly when this whole list is matchless. -/
def runAllBatches (step : StepFn) :
    List (List PolicyDocument) → Cache → List (Option (PolicyDocument × CachedResult))
  | [], _ => []
  | batch :: rest, cache =>
    let out := runBatch step batch cache
    out.1 ++ runAllBatches step rest out.2.1

/-! ## Completion-order model for the ordering claim (C2)

Promise.all starts every call of a batch, receives each result at whatever
time the service answers, and delivers the results array indexed by batch
position.  Below, a schedule lists the batch positions in completion order;
the arrivals carry (position, verdict) pairs in that order and the array is
reassembled by position — the explicit form of what Promise.all guarantees.
The per-document verdicts are a fixed assignment (the claim's own framing of
arbitrary timing). -/

/-- Promise.all's reassembly: position i of the delivered array is the value
that arrived for position i, whenever it arrived. -/
def reassemble (n : Nat) (arrivals : List (Nat × Option (PolicyDocument × CachedResult))) :
    List (Option (PolicyDocument × CachedResult)) :=
  (List.range n).map (fun i => (arrivals.lookup i).getD none)

/-- One batch under an explicit completion order sched (a permutation of the
batch positions): verdicts arrive in sched order, the array is reassembled
by position. -/
def runBatchSched (eval : PolicyDocument → Option (PolicyDocument × CachedResult))
    (batch : List PolicyDocument) (sched : List Nat) :
    List (Option (PolicyDocument × CachedResult)) :=
  reassemble batch.length
    (sched.filterMap (fun i => (batch.get? i).map (fun p => (i, eval p))))

/-- The batch loop's scan under explicit completion orders, batch b using
schedule scheds b: first match in the reassembled (position-ordered) results
wins, a fully matchless procession is 'not-met'. -/
def scanSched (eval : PolicyDocument → Option (PolicyDocument × CachedResult))
    (scheds : Nat → List Nat) :
    List (List PolicyDocument) → Nat → SearchResult
  | [], _ => { status := .notMet, evidence := none }
  | batch :: rest, b =>
    match (runBatchSched eval batch (scheds b)).findSome? id with
    | some m => mkMetResult m
    | none => scanSched eval scheds rest (b + 1)

/-! ## Statement-side predicates

The source never checks the excerpt it returns (that is what claim C7 is
about); these predicates name, for the theorems only, what a well-behaved
excerpt would be and what a cache containing only such excerpts looks
like. -/

/-- The excerpt stored in r is present, non-empty, at most 250 characters,
and occurs verbatim in the document's content. -/
def GoodExcerpt (p : PolicyDocument) (r : CachedResult) : Prop :=
  ∃ s : String, r.excerpt = some s ∧ s.data ≠ [] ∧ s.length ≤ 250 ∧
    containsSeq s.data p.content.data = true

/-- Every positive entry the cache holds for a candidate document carries a
good excerpt for that document. -/
def CacheInv (question : String) (P : List PolicyDocument) (cache : Cache) : Prop :=
  ∀ p ∈ P, ∀ r : CachedResult, cache (getCacheKey question p.id) = some r →
    r.found = true → GoodExcerpt p r

/-! ## Concrete fixtures

Closed inputs used by the counterexamples and by the witnesses that
instantiate the hypothesis-bearing theorems. -/

/-- A concrete audit question. -/
def fixQ : String := "Are urgent authorizations processed within 72 hours?"

/-- The rational 9/10, built with the raw constructor so it evaluates. -/
def conf09 : ℚ := Rat.mk' 9 10 (by decide) (by decide)

/-- The empty cache (a fresh process). -/
def emptyCache : Cache := fun _ => none

/-- A parsed verdict carrying a verbatim excerpt of polB's content. -/
def fixVerdict : ParsedVerdict :=
  { found := true, excerpt := some "seventy-two (72) hours", confidence := some conf09,
    reasoning := none }

/-- A marker-free policy document whose content contains the excerpt of
fixVerdict (length 143 ≥ 100). -/
def polB : PolicyDocument :=
  { id := "B", policy_number := "HH-2", policy_name := "Utilization",
    policy_category := "HH",
    content := "This policy requires that staff must process urgent requests within seventy-two (72) hours of receipt in all cases without exception whatsoever." }

/-- A well-behaved oracle: routing picks HH, every page evaluation returns
fixVerdict. -/
def oGood : Oracle :=
  { category := fun _ => .arrayVal ["HH"],
    page := fun _ _ _ _ => .parsed fixVerdict }

/-- Document content with two well-formed page markers (length 145). -/
def c6content : String :=
  "Page 1 of 2 " ++ String.mk (List.replicate 60 'a') ++
  " Page 2 of 2 " ++ String.mk (List.replicate 60 'b')

/-- The two-page document Alpha. -/
def polA : PolicyDocument :=
  { id := "A", policy_number := "GG-1", policy_name := "Alpha",
    policy_category := "GG", content := c6content }

/-- A second marker-free document, Beta (length 120). -/
def polBeta : PolicyDocument :=
  { id := "BB", policy_number := "GG-2", policy_name := "Beta",
    policy_category := "GG", content := String.mk (List.replicate 120 'b') }

/-- The cached result Beta's single-page evaluation produces at clock 0
under an oracle answering {found, excerpt "ev", confidence 0.9}. -/
def mBeta : CachedResult :=
  { found := true, excerpt := some "ev", confidence := some conf09, reasoning := none,
    pageNumber := some "1", timestamp := 0 }

/-- Oracle whose page responses are malformed exactly for document Alpha
and a qualifying verdict for everything else. -/
def oC6w : Oracle :=
  { category := fun _ => .malformed,
    page := fun _ nm _ _ =>
      if nm = "Alpha" then .malformed
      else .parsed { found := true, excerpt := some "ev", confidence := some conf09,
                     reasoning := none } }

/-- Oracle: page "1 of 2" malformed, every other page a qualifying verdict. -/
def oC6mal : Oracle :=
  { category := fun _ => .malformed,
    page := fun _ _ label _ =>
      if label = "1 of 2" then .malformed
      else .parsed { found := true, excerpt := some "ev", confidence := some conf09,
                     reasoning := none } }

/-- Oracle: page "1 of 2" a well-formed not-found, every other page a
qualifying verdict (the contrast to oC6mal). -/
def oC6nf : Oracle :=
  { category := fun _ => .malformed,
    page := fun _ _ label _ =>
      if label = "1 of 2" then .parsed { found := false, excerpt := none, confidence := none,
                                         reasoning := none }
      else .parsed { found := true, excerpt := some "ev", confidence := some conf09,
                     reasoning := none } }

/-- Oracle: page "1 of 2" a well-formed not-found, everything after it
malformed (so a document's evaluation aborts on page 2 and caches
nothing). -/
def oC8bad : Oracle :=
  { category := fun _ => .malformed,
    page := fun _ _ label _ =>
      if label = "1 of 2" then .parsed { found := false, excerpt := none, confidence := none,
                                         reasoning := none }
      else .malformed }

/-- Oracle returning a qualifying verdict whose excerpt appears in no
fixture document. -/
def oFab : Oracle :=
  { category := fun _ => .arrayVal ["HH"],
    page := fun _ _ _ _ =>
      .parsed { found := true, excerpt := some "THIS TEXT IS FABRICATED",
                confidence := some conf09, reasoning := none } }

/-- A document whose content is shorter than 100 characters. -/
def shortPol : PolicyDocument :=
  { id := "S", policy_number := "GG-9", policy_name := "Stub",
    policy_category := "GG", content := "too short to analyse" }

/-- Content with text before its first page marker (the marker scan starts
at index 3, so the prefix "abc" belongs to no chunk). -/
def c5content : String := "abcPage 1 of 2 aaaa Page 2 of 2 bbbb"

/-- A per-document verdict assignment under which every document matches. -/
def evalBoth : PolicyDocument → Option (PolicyDocument × CachedResult) :=
  fun p => some (p, mBeta)

/-- A completion schedule delivering position 1 before position 0. -/
def schedRev : Nat → List Nat := fun _ => [1, 0]


/-! ## Supporting lemmas -/

theorem matchCaseless_length : ∀ (ls cs cs2 : List Char),
    matchCaseless ls cs = some cs2 → cs.length = ls.length + cs2.length := by
  intro ls
  induction ls with
  | nil =>
    intro cs cs2 h
    simp only [matchCaseless, Option.some.injEq] at h
    subst h; simp
  | cons l ls ih =>
    intro cs cs2 h
    cases cs with
    | nil => simp [matchCaseless] at h
    | cons c rest =>
      simp only [matchCaseless] at h
      by_cases hc : c.toLower = l.toLower
      · rw [if_pos hc] at h
        have := ih rest cs2 h
        simp [List.length_cons]
        omega
      · rw [if_neg hc] at h; cases h

theorem tryMarker_consumes : ∀ (cs d1 d2 after : List Char),
    tryMarker cs = some (d1, d2, after) →
    cs.length = (5 + d1.length + 4 + d2.length) + after.length ∧ ¬ d1.isEmpty ∧ ¬ d2.isEmpty := by
  intro cs d1 d2 after h
  unfold tryMarker at h
  cases hA : matchCaseless ['P','a','g','e',' '] cs with
  | none => rw [hA] at h; cases h
  | some cs1 =>
    rw [hA] at h
    simp only at h
    by_cases hd1 : (cs1.takeWhile Char.isDigit).isEmpty
    · rw [if_pos hd1] at h; cases h
    · rw [if_neg hd1] at h
      cases hB : matchCaseless [' ','o','f',' '] (cs1.dropWhile Char.isDigit) with
      | none => rw [hB] at h; cases h
      | some cs2 =>
        rw [hB] at h
        simp only at h
        by_cases hd2 : (cs2.takeWhile Char.isDigit).isEmpty
        · rw [if_pos hd2] at h; cases h
        · rw [if_neg hd2] at h
          simp only [Option.some.injEq, Prod.mk.injEq] at h
          obtain ⟨h1, h2, h3⟩ := h
          subst h1; subst h2; subst h3
          have l1 := matchCaseless_length _ _ _ hA
          have l2 := matchCaseless_length _ _ _ hB
          have s1 := congrArg List.length (@List.takeWhile_append_dropWhile _ Char.isDigit cs1)
          have s2 := congrArg List.length (@List.takeWhile_append_dropWhile _ Char.isDigit cs2)
          rw [List.length_append] at s1 s2
          refine ⟨?_, hd1, hd2⟩
          have l1x : cs.length = 5 + cs1.length := by simpa using l1
          have l2x : (cs1.dropWhile Char.isDigit).length = 4 + cs2.length := by simpa using l2
          omega

theorem scanMarkersFuel_bounds : ∀ (fuel : Nat) (cs : List Char) (pos : Nat),
    ∀ m ∈ scanMarkersFuel fuel cs pos, pos ≤ m.1 ∧ m.1 < pos + cs.length := by
  intro fuel
  induction fuel with
  | zero => intro cs pos m hm; simp [scanMarkersFuel] at hm
  | succ n ih =>
    intro cs pos m hm
    cases cs with
    | nil => simp [scanMarkersFuel] at hm
    | cons c rest =>
      rw [scanMarkersFuel] at hm
      cases htm : tryMarker (c :: rest) with
      | none =>
        rw [htm] at hm
        have := ih rest (pos + 1) m hm
        simp only [List.length_cons]
        omega
      | some pr =>
        obtain ⟨d1, d2, after⟩ := pr
        rw [htm] at hm
        obtain ⟨hlen, -, -⟩ := tryMarker_consumes _ _ _ _ htm
        rcases List.mem_cons.mp hm with hm | hm
        · subst hm
          simp only [List.length_cons] at hlen ⊢
          omega
        · have := ih after (pos + (5 + d1.length + 4 + d2.length)) m hm
          simp only [List.length_cons] at hlen ⊢
          omega

theorem scanMarkersFuel_chain : ∀ (fuel : Nat) (cs : List Char) (pos : Nat),
    List.Chain' (fun a b => a.1 < b.1) (scanMarkersFuel fuel cs pos) := by
  intro fuel
  induction fuel with
  | zero => intro cs pos; simp [scanMarkersFuel]
  | succ n ih =>
    intro cs pos
    cases cs with
    | nil => simp [scanMarkersFuel]
    | cons c rest =>
      rw [scanMarkersFuel]
      cases htm : tryMarker (c :: rest) with
      | none => exact ih rest (pos + 1)
      | some pr =>
        obtain ⟨d1, d2, after⟩ := pr
        refine List.chain'_cons'.mpr ⟨?_, ih after _⟩
        intro y hy
        have hmem : y ∈ scanMarkersFuel n after (pos + (5 + d1.length + 4 + d2.length)) :=
          List.mem_of_mem_head? hy
        have := scanMarkersFuel_bounds n after _ y hmem
        omega

theorem scanMarkersFuel_stable : ∀ (fuel : Nat) (cs : List Char) (pos : Nat),
    cs.length ≤ fuel → scanMarkersFuel (fuel + 1) cs pos = scanMarkersFuel fuel cs pos := by
  intro fuel
  induction fuel with
  | zero =>
    intro cs pos h
    have : cs = [] := List.length_eq_zero.mp (Nat.le_zero.mp h)
    subst this
    rfl
  | succ n ih =>
    intro cs pos h
    cases cs with
    | nil => rfl
    | cons c rest =>
      rw [scanMarkersFuel]
      conv_rhs => rw [scanMarkersFuel]
      cases htm : tryMarker (c :: rest) with
      | none =>
        simp only [htm]
        exact ih rest (pos + 1) (by simpa using h)
      | some pr =>
        obtain ⟨d1, d2, after⟩ := pr
        simp only [htm]
        obtain ⟨hlen, -, -⟩ := tryMarker_consumes _ _ _ _ htm
        simp only [List.length_cons] at hlen h
        rw [ih after _ (by omega)]

theorem buildChunks_length (cs : List Char) :
    ∀ ms, (buildChunks cs ms).length = ms.length := by
  intro ms
  induction ms with
  | nil => rfl
  | cons m rest ih =>
    obtain ⟨p, d1, d2⟩ := m
    simp only [buildChunks, List.length_cons, ih]

theorem buildChunks_labels (cs : List Char) :
    ∀ ms, (buildChunks cs ms).map (fun ch => ch.pageNumber) =
      ms.map (fun m => labelOf m.2.1 m.2.2) := by
  intro ms
  induction ms with
  | nil => rfl
  | cons m rest ih =>
    obtain ⟨p, d1, d2⟩ := m
    simp only [buildChunks, List.map_cons, ih]

theorem buildChunks_starts (cs : List Char) :
    ∀ ms, (buildChunks cs ms).map (fun ch => ch.startIndex) = ms.map (fun m => m.1) := by
  intro ms
  induction ms with
  | nil => rfl
  | cons m rest ih =>
    obtain ⟨p, d1, d2⟩ := m
    simp only [buildChunks, List.map_cons, ih]

theorem buildChunks_flatten (cs : List Char) :
    ∀ (rest : List (Nat × List Char × List Char)) (p : Nat) (d1 d2 : List Char),
      List.Chain' (fun a b => a.1 < b.1) ((p, d1, d2) :: rest) →
      (∀ m ∈ (p, d1, d2) :: rest, m.1 < cs.length) →
      ((buildChunks cs ((p, d1, d2) :: rest)).map (fun ch => ch.content.data)).flatten
        = cs.drop p := by
  intro rest
  induction rest with
  | nil =>
    intro p d1 d2 _ _
    show ((cs.drop p).take (cs.length - p) ++ []) = cs.drop p
    rw [List.append_nil]
    apply List.take_of_length_le
    simp [List.length_drop]
  | cons m rest ih =>
    intro p d1 d2 hchain hbnd
    obtain ⟨q, e1, e2⟩ := m
    have hpq : p < q := (List.chain'_cons.mp hchain).1
    have hqlen : q < cs.length := hbnd (q, e1, e2) (by simp)
    have hq0 : ¬ (q = 0) := by omega
    show ((cs.drop p).take ((if q = 0 then cs.length else q) - p) ++
        ((buildChunks cs ((q, e1, e2) :: rest)).map (fun ch => ch.content.data)).flatten)
      = cs.drop p
    rw [if_neg hq0]
    rw [ih q e1 e2 (List.chain'_cons.mp hchain).2 (fun m hm => hbnd m (List.mem_cons_of_mem _ hm))]
    have hdd : cs.drop q = (cs.drop p).drop (q - p) := by
      rw [List.drop_drop]
      congr 1
      omega
    rw [hdd, List.take_append_drop]

theorem buildChunks_chain (cs : List Char) :
    ∀ ms, List.Chain' (fun a b => a.1 < b.1) ms →
      (∀ m ∈ ms, m.1 < cs.length) →
      List.Chain' (fun a b => a.startIndex + a.content.data.length = b.startIndex)
        (buildChunks cs ms) := by
  intro ms
  induction ms with
  | nil => intro _ _; simp [buildChunks]
  | cons m rest ih =>
    intro hchain hbnd
    obtain ⟨p, d1, d2⟩ := m
    refine List.chain'_cons'.mpr ⟨?_, ?_⟩
    · intro y hy
      cases rest with
      | nil => simp [buildChunks] at hy
      | cons m2 rest2 =>
        obtain ⟨q, e1, e2⟩ := m2
        have hpq : p < q := (List.chain'_cons.mp hchain).1
        have hqlen : q < cs.length := hbnd (q, e1, e2) (by simp)
        have hq0 : ¬ (q = 0) := by omega
        simp only [buildChunks, List.head?_cons, Option.mem_def, Option.some.injEq] at hy
        subst hy
        dsimp only
        rw [if_neg hq0, List.length_take, List.length_drop]
        omega
    · exact ih (List.chain'_cons'.mp hchain).2
        (fun m hm => hbnd m (List.mem_cons_of_mem _ hm))

theorem bandSplit {a b : Bool} (h : (a && b) = true) : a = true ∧ b = true :=
  Bool.and_eq_true a b ▸ h

theorem pageLoop_found_spec (question : String) (o : Oracle) (now : Int)
    (policy : PolicyDocument) :
    ∀ (chunks : List PageChunk) (calls : Nat) (r : CachedResult) (n : Nat),
      pageLoop question o now policy chunks calls = .found r n →
      r.found = true ∧ confPasses r.confidence = true ∧ r.timestamp = now ∧
      ∃ ch ∈ chunks, ∃ v : ParsedVerdict,
        o.page question policy.policy_name ch.pageNumber (truncatePage ch.content) = .parsed v ∧
        (v.found && confPasses v.confidence) = true ∧
        r.excerpt = v.excerpt ∧ r.confidence = v.confidence ∧ r.pageNumber = some ch.pageNumber := by
  intro chunks
  induction chunks with
  | nil => intro calls r n h; cases h
  | cons ch rest ih =>
    intro calls r n h
    rw [pageLoop] at h
    cases hresp : o.page question policy.policy_name ch.pageNumber (truncatePage ch.content) with
    | noContent =>
      rw [hresp] at h
      simp only at h
      obtain ⟨h1, h2, h3, ch2, hch2, hv⟩ := ih _ _ _ h
      exact ⟨h1, h2, h3, ch2, List.mem_cons_of_mem _ hch2, hv⟩
    | malformed => rw [hresp] at h; cases h
    | parsed v =>
      rw [hresp] at h
      simp only at h
      by_cases hq : (v.found && confPasses v.confidence) = true
      · rw [if_pos hq] at h
        injection h with h1 h2
        subst h1
        refine ⟨rfl, ?_, rfl, ch, List.mem_cons_self _ _, v, hresp, hq, rfl, rfl, rfl⟩
        exact (bandSplit hq).2
      · rw [if_neg hq] at h
        obtain ⟨h1, h2, h3, ch2, hch2, hv⟩ := ih _ _ _ h
        exact ⟨h1, h2, h3, ch2, List.mem_cons_of_mem _ hch2, hv⟩

theorem pageLoop_no_abort (question : String) (o : Oracle) (now : Int)
    (policy : PolicyDocument)
    (hwf : ∀ label pc, o.page question policy.policy_name label pc ≠ .malformed) :
    ∀ (chunks : List PageChunk) (calls n : Nat),
      pageLoop question o now policy chunks calls ≠ .aborted n := by
  intro chunks
  induction chunks with
  | nil => intro calls n h; cases h
  | cons ch rest ih =>
    intro calls n h
    rw [pageLoop] at h
    cases hresp : o.page question policy.policy_name ch.pageNumber (truncatePage ch.content) with
    | noContent => rw [hresp] at h; exact ih _ _ h
    | malformed => exact hwf _ _ hresp
    | parsed v =>
      rw [hresp] at h
      simp only at h
      by_cases hq : (v.found && confPasses v.confidence) = true
      · rw [if_pos hq] at h; cases h
      · rw [if_neg hq] at h; exact ih _ _ h

theorem processFresh_pos (question : String) (o : Oracle) (now : Int)
    (policy : PolicyDocument) (k : String) (m : PolicyDocument × CachedResult)
    (h : (processFresh question o now policy k).1 = some m) :
    m.1 = policy ∧ m.2.found = true ∧
    ∃ c : ℚ, m.2.confidence = some c ∧ confThreshold < c := by
  unfold processFresh at h
  cases hpl : pageLoop question o now policy (parsePolicyIntoPages policy.content) 0 with
  | found r n =>
    rw [hpl] at h
    injection h with h1
    obtain ⟨hf, hcp, -, -⟩ := pageLoop_found_spec question o now policy _ _ _ _ hpl
    subst h1
    refine ⟨rfl, hf, ?_⟩
    cases hcc : r.confidence with
    | none => rw [hcc] at hcp; cases hcp
    | some c =>
      rw [hcc] at hcp
      exact ⟨c, rfl, of_decide_eq_true hcp⟩
  | exhausted n => rw [hpl] at h; cases h
  | aborted n => rw [hpl] at h; cases h

theorem processPolicy_pos (question : String) (o : Oracle) (now : Int)
    (policy : PolicyDocument) (cache : Cache) (m : PolicyDocument × CachedResult)
    (h : (processPolicy question o now policy cache).1 = some m) :
    m.1 = policy ∧ m.2.found = true ∧
    ∃ c : ℚ, m.2.confidence = some c ∧ confThreshold < c := by
  unfold processPolicy at h
  by_cases hg : (policy.content.data.isEmpty || decide (policy.content.length < 100)) = true
  · rw [if_pos hg] at h; cases h
  · rw [if_neg hg] at h
    simp only at h
    cases hc : cache (getCacheKey question policy.id) with
    | some cached =>
      rw [hc] at h
      simp only at h
      by_cases hfr : now - cached.timestamp < CACHE_TTL
      · rw [if_pos hfr] at h
        by_cases hok : (cached.found && cachedConfPasses cached.confidence) = true
        · rw [if_pos hok] at h
          injection h with h1
          subst h1
          obtain ⟨h1, h2⟩ := bandSplit hok
          refine ⟨rfl, h1, ?_⟩
          cases hcc : cached.confidence with
          | none => rw [hcc] at h2; cases h2
          | some c =>
            rw [hcc] at h2
            unfold cachedConfPasses at h2
            have := bandSplit h2
            exact ⟨c, rfl, of_decide_eq_true this.2⟩
        · rw [if_neg hok] at h; cases h
      · rw [if_neg hfr] at h
        exact processFresh_pos question o now policy _ m h
    | none =>
      rw [hc] at h
      simp only at h
      exact processFresh_pos question o now policy _ m h

theorem processPolicy_short (question : String) (o : Oracle) (now : Int)
    (policy : PolicyDocument) (cache : Cache)
    (h : policy.content.length < 100) :
    processPolicy question o now policy cache = (none, none, 0) := by
  unfold processPolicy
  rw [if_pos]
  simp [h]

theorem mkMetResult_status (m : PolicyDocument × CachedResult) :
    (mkMetResult m).status = SearchStatus.met := rfl

theorem runBatch_results (step : StepFn) (batch : List PolicyDocument) (cache : Cache) :
    (runBatch step batch cache).1 = batch.map (fun p => (step p cache).1) := by
  unfold runBatch
  simp [List.map_map, Function.comp]

theorem runBatch_calls (step : StepFn) (batch : List PolicyDocument) (cache : Cache) :
    (runBatch step batch cache).2.2 = (batch.map (fun p => (step p cache).2.2)).sum := by
  show ((batch.map (fun p => step p cache)).map (fun out => out.2.2)).sum
      = (batch.map (fun p => (step p cache).2.2)).sum
  rw [List.map_map]
  rfl

theorem searchBatchLoop_cases (step : StepFn) :
    ∀ (batches : List (List PolicyDocument)) (cache : Cache) (calls searched : Nat),
      (searchBatchLoop step batches cache calls searched).result
          = { status := SearchStatus.notMet, evidence := none } ∨
      ∃ p ∈ batches.flatten, ∃ c2 : Cache, ∃ m, (step p c2).1 = some m ∧
        (searchBatchLoop step batches cache calls searched).result = mkMetResult m := by
  intro batches
  induction batches with
  | nil => intro cache calls searched; exact Or.inl rfl
  | cons batch rest ih =>
    intro cache calls searched
    rw [searchBatchLoop]
    cases hfs : (runBatch step batch cache).1.findSome? id with
    | some m =>
      simp only
      refine Or.inr ?_
      obtain ⟨x, hx, hxm⟩ := List.exists_of_findSome?_eq_some hfs
      rw [runBatch_results] at hx
      obtain ⟨p, hp, hpx⟩ := List.mem_map.mp hx
      exact ⟨p, by simp [hp], cache, m, hpx.trans (by simpa using hxm), rfl⟩
    | none =>
      simp only
      rcases ih (runBatch step batch cache).2.1 (calls + (runBatch step batch cache).2.2)
          (searched + batch.length) with h | ⟨p, hp, c2, m, hm, hres⟩
      · exact Or.inl h
      · exact Or.inr ⟨p, by simp at hp ⊢; exact Or.inr hp, c2, m, hm, hres⟩

theorem searchBatchLoop_notMet_iff (step : StepFn) :
    ∀ (batches : List (List PolicyDocument)) (cache : Cache) (calls searched : Nat),
      ((searchBatchLoop step batches cache calls searched).result.status = SearchStatus.notMet
        ↔ ∀ r ∈ runAllBatches step batches cache, r = none) := by
  intro batches
  induction batches with
  | nil =>
    intro cache calls searched
    constructor
    · intro _ r hr; simp [runAllBatches] at hr
    · intro _; rfl
  | cons batch rest ih =>
    intro cache calls searched
    rw [searchBatchLoop]
    rw [runAllBatches]
    cases hfs : (runBatch step batch cache).1.findSome? id with
    | some m =>
      simp only [mkMetResult_status]
      constructor
      · intro h; cases h
      · intro hall
        obtain ⟨x, hx, hxm⟩ := List.exists_of_findSome?_eq_some hfs
        have := hall x (by simp [hx])
        rw [this] at hxm
        cases hxm
    | none =>
      simp only
      rw [ih]
      constructor
      · intro hall r hr
        rcases List.mem_append.mp hr with hr | hr
        · exact (List.findSome?_eq_none_iff.mp hfs) r hr
        · exact hall r hr
      · intro hall r hr
        exact hall r (List.mem_append.mpr (Or.inr hr))

theorem searchBatchLoop_notMet_searched (step : StepFn) :
    ∀ (batches : List (List PolicyDocument)) (cache : Cache) (calls searched : Nat),
      (searchBatchLoop step batches cache calls searched).result.status = SearchStatus.notMet →
      (searchBatchLoop step batches cache calls searched).searched
        = searched + batches.flatten.length := by
  intro batches
  induction batches with
  | nil => intro cache calls searched _; simp [searchBatchLoop]
  | cons batch rest ih =>
    intro cache calls searched h
    rw [searchBatchLoop] at h ⊢
    cases hfs : (runBatch step batch cache).1.findSome? id with
    | some m =>
      rw [hfs] at h
      simp only [mkMetResult_status] at h
      cases h
    | none =>
      rw [hfs] at h
      simp only at h ⊢
      rw [ih _ _ _ h]
      simp [List.length_append]
      omega

theorem chunksOfFuel_flatten :
    ∀ (fuel n : Nat) (xs : List PolicyDocument),
      1 ≤ n → xs.length ≤ fuel → (chunksOfFuel fuel n xs).flatten = xs := by
  intro fuel
  induction fuel with
  | zero =>
    intro n xs _ h
    have : xs = [] := List.length_eq_zero.mp (Nat.le_zero.mp h)
    subst this; rfl
  | succ f ih =>
    intro n xs hn h
    cases xs with
    | nil => rfl
    | cons x rest =>
      rw [chunksOfFuel]
      rw [List.flatten_cons]
      rw [ih n ((x :: rest).drop n) hn (by simp [List.length_drop, List.length_cons] at h ⊢; omega)]
      exact List.take_append_drop n (x :: rest)

theorem chunksOf_flatten (n : Nat) (xs : List PolicyDocument) (hn : 1 ≤ n) :
    (chunksOf n xs).flatten = xs :=
  chunksOfFuel_flatten xs.length n xs hn (le_refl _)

theorem arrivals_lookup (eval : PolicyDocument → Option (PolicyDocument × CachedResult))
    (batch : List PolicyDocument) :
    ∀ (sched : List Nat) (i : Nat), i ∈ sched → (∀ j ∈ sched, j < batch.length) →
      (sched.filterMap (fun j => (batch.get? j).map (fun p => (j, eval p)))).lookup i
        = (batch.get? i).map (fun p => eval p) := by
  intro sched
  induction sched with
  | nil => intro i hi; cases hi
  | cons j rest ih =>
    intro i hi hbnd
    have hj : j < batch.length := hbnd j (List.mem_cons_self _ _)
    obtain ⟨pj, hpj⟩ : ∃ pj, batch.get? j = some pj := by
      rw [List.get?_eq_get hj]; exact ⟨_, rfl⟩
    rw [List.filterMap_cons, hpj]
    simp only [Option.map_some']
    by_cases hij : i = j
    · subst hij
      simp only [List.lookup, beq_self_eq_true]
      rw [hpj]
      rfl
    · simp only [List.lookup, beq_false_of_ne hij]
      exact ih i (by rcases List.mem_cons.mp hi with h | h; exact absurd h hij; exact h)
        (fun t ht => hbnd t (List.mem_cons_of_mem _ ht))

theorem runBatchSched_perm (eval : PolicyDocument → Option (PolicyDocument × CachedResult))
    (batch : List PolicyDocument) (sched : List Nat)
    (hp : sched.Perm (List.range batch.length)) :
    runBatchSched eval batch sched = batch.map (fun p => eval p) := by
  apply List.ext_get?
  intro i
  unfold runBatchSched reassemble
  rw [List.get?_map, List.get?_map]
  by_cases hi : i < batch.length
  · rw [List.get?_range hi]
    simp only [Option.map_some']
    rw [arrivals_lookup eval batch sched i
      ((hp.mem_iff).mpr (List.mem_range.mpr hi))
      (fun j hj => List.mem_range.mp ((hp.mem_iff).mp hj))]
    obtain ⟨pi, hpi⟩ : ∃ pi, batch.get? i = some pi := by
      rw [List.get?_eq_get hi]; exact ⟨_, rfl⟩
    rw [hpi]
    rfl
  · rw [List.get?_eq_none.mpr (by simpa [List.length_range] using hi),
        List.get?_eq_none.mpr (by omega)]
    rfl

theorem searchBatchLoop_stateless (eval : PolicyDocument → Option (PolicyDocument × CachedResult)) :
    ∀ (batches : List (List PolicyDocument)) (cache : Cache) (calls searched : Nat),
      (searchBatchLoop (fun p _ => (eval p, none, 0)) batches cache calls searched).result
        = match batches.flatten.findSome? (fun p => eval p) with
          | some m => mkMetResult m
          | none => { status := SearchStatus.notMet, evidence := none } := by
  intro batches
  induction batches with
  | nil => intro cache calls searched; rfl
  | cons batch rest ih =>
    intro cache calls searched
    rw [searchBatchLoop]
    have hres : List.findSome? id (runBatch (fun p _ => (eval p, none, 0)) batch cache).1
        = batch.findSome? (fun p => eval p) := by
      rw [runBatch_results, List.findSome?_map]
      rfl
    rw [hres]
    rw [show (batch :: rest).flatten = batch ++ rest.flatten from rfl]
    rw [List.findSome?_append]
    cases hb : batch.findSome? (fun p => eval p) with
    | some m => rfl
    | none =>
      simp only [Option.none_or]
      exact ih _ _ _

theorem scanSched_eq (eval : PolicyDocument → Option (PolicyDocument × CachedResult))
    (scheds : Nat → List Nat) :
    ∀ (batches : List (List PolicyDocument)) (b : Nat),
      (∀ j batch, batches.get? j = some batch → (scheds (b + j)).Perm (List.range batch.length)) →
      scanSched eval scheds batches b
        = match batches.flatten.findSome? (fun p => eval p) with
          | some m => mkMetResult m
          | none => { status := SearchStatus.notMet, evidence := none } := by
  intro batches
  induction batches with
  | nil => intro b _; rfl
  | cons batch rest ih =>
    intro b hv
    rw [scanSched]
    have hperm : (scheds b).Perm (List.range batch.length) := by
      have := hv 0 batch rfl
      simpa using this
    rw [runBatchSched_perm eval batch (scheds b) hperm]
    have hmap : List.findSome? id (batch.map (fun p => eval p))
        = batch.findSome? (fun p => eval p) := by
      rw [List.findSome?_map]
      rfl
    rw [hmap]
    rw [show (batch :: rest).flatten = batch ++ rest.flatten from rfl]
    rw [List.findSome?_append]
    cases hb : batch.findSome? (fun p => eval p) with
    | some m => rfl
    | none =>
      simp only [Option.none_or]
      refine ih (b + 1) ?_
      intro j batch2 hj
      have := hv (j + 1) batch2 (by simpa using hj)
      have e : b + (j + 1) = b + 1 + j := by omega
      rw [e] at this
      exact this


/-! ## Claim theorems -/

theorem confThreshold_eq : confThreshold = 6/10 := by
  have h1 : confThreshold = (3 : ℚ)/5 := by
    unfold confThreshold
    rw [Rat.mk'_eq_divInt, Rat.divInt_eq_div]
    norm_num
  rw [h1]
  norm_num


theorem search_unfold (o : Oracle) (store : List String → List PolicyDocument)
    (now : Int) (question : String) (cache0 : Cache) :
    searchPoliciesForEvidence o store now question cache0
      = if (store (selectRelevantCategories (o.category question))).length = 0 then
          ⟨{ status := SearchStatus.underReview, evidence := none }, cache0, 1, 0⟩
        else
          ⟨(searchBatchLoop (fun p c => processPolicy question o now p c)
              (chunksOf 25 (store (selectRelevantCategories (o.category question)))) cache0 0 0).result,
           (searchBatchLoop (fun p c => processPolicy question o now p c)
              (chunksOf 25 (store (selectRelevantCategories (o.category question)))) cache0 0 0).cache,
           1 + (searchBatchLoop (fun p c => processPolicy question o now p c)
              (chunksOf 25 (store (selectRelevantCategories (o.category question)))) cache0 0 0).calls,
           (searchBatchLoop (fun p c => processPolicy question o now p c)
              (chunksOf 25 (store (selectRelevantCategories (o.category question)))) cache0 0 0).searched⟩ :=
  rfl

/-- C1: a SearchResult of searchPoliciesForEvidence has status met exactly
when it carries evidence, and any evidence it carries was derived from a
verdict — fresh or cached — whose confidence exceeds the 0.6 threshold;
not-met and under-review results carry no evidence. -/
theorem C1_met_iff_evidence (o : Oracle) (store : List String → List PolicyDocument)
    (now : Int) (question : String) (cache0 : Cache) :
    ((searchPoliciesForEvidence o store now question cache0).result.status = SearchStatus.met
      ↔ ((searchPoliciesForEvidence o store now question cache0).result.evidence.isSome = true)) ∧
    (∀ e : PolicyMatch,
      (searchPoliciesForEvidence o store now question cache0).result.evidence = some e →
      ∃ c : ℚ, e.confidence = some c ∧ confThreshold < c) := by
  rw [search_unfold]
  by_cases h0 : (store (selectRelevantCategories (o.category question))).length = 0
  · rw [if_pos h0]
    constructor
    · constructor
      · intro h; cases h
      · intro h; cases h
    · intro e he; cases he
  · rw [if_neg h0]
    rcases searchBatchLoop_cases (fun p c => processPolicy question o now p c)
        (chunksOf 25 (store (selectRelevantCategories (o.category question)))) cache0 0 0 with
      hres | ⟨p, hp, c2, m, hm, hres⟩
    · simp only [hres]
      constructor
      · constructor
        · intro h; cases h
        · intro h; cases h
      · intro e he; cases he
    · simp only [hres]
      obtain ⟨hm1, hm2, c, hc, hlt⟩ := processPolicy_pos question o now p c2 m hm
      constructor
      · constructor
        · intro _; rfl
        · intro _; rfl
      · intro e he
        have : e = (mkMetResult m).evidence.get (by rfl) := by
          unfold mkMetResult at he ⊢
          simp only [Option.some.injEq] at he
          simp [← he]
        refine ⟨c, ?_, hlt⟩
        rw [this]
        unfold mkMetResult
        simpa using hc

/-- C3: the search answers not-met exactly when the routed candidate set is
non-empty and the full batch procession over it yields no match for any
candidate — never before the set is exhausted; in that case
policiesSearched equals the full candidate count. -/
theorem C3_notMet_exhaustion (o : Oracle) (store : List String → List PolicyDocument)
    (now : Int) (question : String) (cache0 : Cache) :
    ((searchPoliciesForEvidence o store now question cache0).result.status = SearchStatus.notMet
      ↔ (store (selectRelevantCategories (o.category question)) ≠ [] ∧
        ∀ r ∈ runAllBatches (fun p c => processPolicy question o now p c)
            (chunksOf 25 (store (selectRelevantCategories (o.category question)))) cache0,
          r = none)) ∧
    ((searchPoliciesForEvidence o store now question cache0).result.status = SearchStatus.notMet →
      (searchPoliciesForEvidence o store now question cache0).searched
        = (store (selectRelevantCategories (o.category question))).length) := by
  rw [search_unfold]
  by_cases h0 : (store (selectRelevantCategories (o.category question))).length = 0
  · rw [if_pos h0]
    constructor
    · constructor
      · intro h; cases h
      · intro hh
        exact absurd (List.length_eq_zero.mp h0) hh.1
    · intro h; cases h
  · rw [if_neg h0]
    have hne : store (selectRelevantCategories (o.category question)) ≠ [] := by
      intro he
      rw [he] at h0
      exact h0 rfl
    constructor
    · rw [searchBatchLoop_notMet_iff]
      constructor
      · intro h; exact ⟨hne, h⟩
      · intro ⟨_, h⟩; exact h
    · intro h
      have hs := searchBatchLoop_notMet_searched (fun p c => processPolicy question o now p c)
        (chunksOf 25 (store (selectRelevantCategories (o.category question)))) cache0 0 0 h
      show (searchBatchLoop (fun p c => processPolicy question o now p c)
          (chunksOf 25 (store (selectRelevantCategories (o.category question)))) cache0 0 0).searched
        = (store (selectRelevantCategories (o.category question))).length
      rw [hs, chunksOf_flatten 25 _ (by omega)]
      omega

/-- C4: when the Corpus Store returns no documents for the routed
categories, the search answers under-review with no evidence (never
not-met), leaves the cache untouched and has issued only the one routing
call. -/
theorem C4_empty_underReview (o : Oracle) (store : List String → List PolicyDocument)
    (now : Int) (question : String) (cache0 : Cache)
    (h : store (selectRelevantCategories (o.category question)) = []) :
    (searchPoliciesForEvidence o store now question cache0).result
        = { status := SearchStatus.underReview, evidence := none } ∧
    (searchPoliciesForEvidence o store now question cache0).calls = 1 ∧
    (searchPoliciesForEvidence o store now question cache0).cache = cache0 := by
  rw [search_unfold]
  rw [if_pos (by rw [h]; rfl)]
  exact ⟨rfl, rfl, rfl⟩

/-- C4 witness: a store with no documents at all yields under-review with
one call. -/
theorem C4_witness :
    (searchPoliciesForEvidence oGood (fun _ => []) 0 fixQ emptyCache).result
        = { status := SearchStatus.underReview, evidence := none } ∧
    (searchPoliciesForEvidence oGood (fun _ => []) 0 fixQ emptyCache).calls = 1 :=
  ⟨(C4_empty_underReview oGood (fun _ => []) 0 fixQ emptyCache rfl).1,
   (C4_empty_underReview oGood (fun _ => []) 0 fixQ emptyCache rfl).2.1⟩

/-- C9 counterexample: a parsed four-element array of unknown codes is
returned as-is — more than 3 tags, none of them in the fixed enumeration —
refuting the claim that the output always has 1-3 tags drawn from the
category keys. -/
theorem C9_counterexample :
    selectRelevantCategories (CatResponse.arrayVal ["XX", "QQ", "ZZ", "WW"])
      = ["XX", "QQ", "ZZ", "WW"] ∧
    ¬ ((selectRelevantCategories (CatResponse.arrayVal ["XX", "QQ", "ZZ", "WW"])).length ≤ 3) ∧
    ¬ ("XX" ∈ CATEGORY_KEYS) := by decide

/-- C9 (amended): selectRelevantCategories never returns an empty list; a
parsed non-empty array is passed through unvalidated (its length and
membership in the category enumeration are not checked), and every other
outcome — missing content, a parse failure, a non-array value or an empty
array — yields the fixed fallback GG, HH, MA, which itself is 1-3 tags
drawn from the enumeration. -/
theorem C9_router (resp : CatResponse) :
    selectRelevantCategories resp ≠ [] ∧
    ((∃ cats, resp = CatResponse.arrayVal cats ∧ cats ≠ [] ∧
        selectRelevantCategories resp = cats) ∨
      (selectRelevantCategories resp = ["GG", "HH", "MA"] ∧
        ∀ cats, resp = CatResponse.arrayVal cats → cats = [])) ∧
    (["GG", "HH", "MA"] : List String).length ≤ 3 ∧
    (∀ c ∈ (["GG", "HH", "MA"] : List String), c ∈ CATEGORY_KEYS) := by
  refine ⟨?_, ?_, by decide, by decide⟩
  · cases resp with
    | noContent => simp [selectRelevantCategories]
    | malformed => simp [selectRelevantCategories]
    | notArray => simp [selectRelevantCategories]
    | arrayVal cats =>
      by_cases hc : cats.length > 0
      · simp only [selectRelevantCategories, if_pos hc]
        exact List.ne_nil_of_length_pos hc
      · simp [selectRelevantCategories, if_neg hc]
  · cases resp with
    | noContent => exact Or.inr ⟨rfl, fun cats h => nomatch h⟩
    | malformed => exact Or.inr ⟨rfl, fun cats h => nomatch h⟩
    | notArray => exact Or.inr ⟨rfl, fun cats h => nomatch h⟩
    | arrayVal cats =>
      by_cases hc : cats.length > 0
      · refine Or.inl ⟨cats, rfl, List.ne_nil_of_length_pos hc, ?_⟩
        simp only [selectRelevantCategories, if_pos hc]
      · refine Or.inr ⟨?_, ?_⟩
        · simp [selectRelevantCategories, if_neg hc]
        · intro cats2 h
          injection h with h2
          subst h2
          exact List.length_eq_zero.mp (by omega)

/-- C9 witness: a concrete non-fallback instance of the router theorem. -/
theorem C9_witness : selectRelevantCategories (CatResponse.arrayVal ["HH"]) ≠ [] :=
  (C9_router (CatResponse.arrayVal ["HH"])).1

/-- C10 counterexample: a search whose only candidate is shorter than 100
characters returns not-met, but with one Inference Service call (the
category-routing call), not zero. -/
theorem C10_counterexample :
    (searchPoliciesForEvidence oGood (fun _ => [shortPol]) 0 fixQ emptyCache).result
      = { status := SearchStatus.notMet, evidence := none } ∧
    (searchPoliciesForEvidence oGood (fun _ => [shortPol]) 0 fixQ emptyCache).calls = 1 ∧
    ¬ ((searchPoliciesForEvidence oGood (fun _ => [shortPol]) 0 fixQ emptyCache).calls = 0) := by
  decide

/-- Helper for C10: a loop all of whose steps return null with no write and
no calls exhausts every batch, leaving cache and call count untouched. -/
theorem foldl_applyWrite_id (cache : Cache) :
    ∀ (outs : List (Option (PolicyDocument × CachedResult) ×
        Option (String × CachedResult) × Nat)),
      (∀ out ∈ outs, out.2.1 = none) →
      outs.foldl (fun c out => applyWrite c out.2.1) cache = cache := by
  intro outs
  induction outs generalizing cache with
  | nil => intro _; rfl
  | cons out rest ih =>
    intro h
    rw [List.foldl_cons]
    rw [h out (List.mem_cons_self _ _)]
    exact ih cache (fun x hx => h x (List.mem_cons_of_mem _ hx))

theorem searchBatchLoop_all_null (step : StepFn) :
    ∀ (batches : List (List PolicyDocument)),
      (∀ b ∈ batches, ∀ p ∈ b, ∀ c : Cache, step p c = (none, none, 0)) →
      ∀ (cache : Cache) (calls searched : Nat),
      searchBatchLoop step batches cache calls searched
        = ⟨{ status := SearchStatus.notMet, evidence := none }, cache, calls,
           searched + batches.flatten.length⟩ := by
  intro batches
  induction batches with
  | nil => intro _ cache calls searched; simp [searchBatchLoop]
  | cons batch rest ih =>
    intro hmem cache calls searched
    have hstep : ∀ p ∈ batch, ∀ c : Cache, step p c = (none, none, 0) :=
      hmem batch (List.mem_cons_self _ _)
    rw [searchBatchLoop]
    have hres : (runBatch step batch cache).1 = batch.map (fun _ => none) := by
      rw [runBatch_results]
      exact List.map_congr_left (fun p hp => by rw [hstep p hp])
    have hfs : List.findSome? id (runBatch step batch cache).1 = none := by
      rw [hres]
      rw [List.findSome?_eq_none_iff]
      intro x hx
      obtain ⟨p, -, hp⟩ := List.mem_map.mp hx
      rw [← hp]
      rfl
    rw [hfs]
    simp only
    have hcache : (runBatch step batch cache).2.1 = cache := by
      unfold runBatch
      apply foldl_applyWrite_id
      intro out hout
      obtain ⟨p, hpmem, hp⟩ := List.mem_map.mp hout
      rw [← hp, hstep p hpmem]
    have hcalls : (runBatch step batch cache).2.2 = 0 := by
      rw [runBatch_calls]
      have : batch.map (fun p => (step p cache).2.2) = batch.map (fun _ => 0) :=
        List.map_congr_left (fun p hp => by rw [hstep p hp])
      rw [this]
      simp
    rw [hcache, hcalls, ih (fun b hb => hmem b (List.mem_cons_of_mem _ hb))]
    simp [List.length_append]
    omega

/-- C10 (amended): a candidate whose content is missing or shorter than 100
characters is dismissed with no inference call and without reading or
writing the cache — its evaluation is (null, no write, 0 calls) against any
cache — and a search whose non-empty candidate set consists only of such
documents returns not-met with the cache unchanged and exactly one
Inference Service call in total: the category-routing call (zero
Document Matcher calls), not zero calls as claimed. -/
theorem C10_short_content (o : Oracle) (store : List String → List PolicyDocument)
    (now : Int) (question : String) (cache0 : Cache) (p : PolicyDocument) (cacheX : Cache)
    (hp : p.content.length < 100)
    (hne : store (selectRelevantCategories (o.category question)) ≠ [])
    (hshort : ∀ p2 ∈ store (selectRelevantCategories (o.category question)),
      p2.content.length < 100) :
    processPolicy question o now p cacheX = (none, none, 0) ∧
    (searchPoliciesForEvidence o store now question cache0).result
      = { status := SearchStatus.notMet, evidence := none } ∧
    (searchPoliciesForEvidence o store now question cache0).calls = 1 ∧
    (searchPoliciesForEvidence o store now question cache0).cache = cache0 := by
  refine ⟨processPolicy_short question o now p cacheX hp, ?_⟩
  rw [search_unfold]
  have h0 : ¬ (store (selectRelevantCategories (o.category question))).length = 0 := by
    intro h
    exact hne (List.length_eq_zero.mp h)
  rw [if_neg h0]
  have hall : ∀ b ∈ chunksOf 25 (store (selectRelevantCategories (o.category question))),
      ∀ p2 ∈ b, ∀ c : Cache,
      (fun (p3 : PolicyDocument) (c2 : Cache) => processPolicy question o now p3 c2) p2 c
        = (none, none, 0) := by
    intro b hb p2 hp2 c
    refine processPolicy_short question o now p2 c (hshort p2 ?_)
    have hmem : p2 ∈ (chunksOf 25 (store (selectRelevantCategories (o.category question)))).flatten :=
      List.mem_flatten.mpr ⟨b, hb, hp2⟩
    rwa [chunksOf_flatten 25 _ (by omega)] at hmem
  rw [searchBatchLoop_all_null _ _ hall]
  exact ⟨rfl, rfl, rfl⟩

/-- C10 witness: the short-content document is dismissed for free and a
search over it alone is not-met with exactly the one routing call. -/
theorem C10_witness :
    processPolicy fixQ oGood 0 shortPol emptyCache = (none, none, 0) ∧
    (searchPoliciesForEvidence oGood (fun _ => [shortPol]) 0 fixQ emptyCache).result
      = { status := SearchStatus.notMet, evidence := none } ∧
    (searchPoliciesForEvidence oGood (fun _ => [shortPol]) 0 fixQ emptyCache).calls = 1 :=
  ⟨(C10_short_content oGood (fun _ => [shortPol]) 0 fixQ emptyCache shortPol emptyCache
      (by decide) (by decide) (by decide)).1,
   (C10_short_content oGood (fun _ => [shortPol]) 0 fixQ emptyCache shortPol emptyCache
      (by decide) (by decide) (by decide)).2.1,
   (C10_short_content oGood (fun _ => [shortPol]) 0 fixQ emptyCache shortPol emptyCache
      (by decide) (by decide) (by decide)).2.2.1⟩

/-- C5 counterexample: c5content holds two well-formed markers but also the
prefix "abc" before the first one; the chunk texts concatenate to the
content from index 3 on, not to the original content. -/
theorem C5_counterexample :
    (scanMarkers c5content.data).length = 2 ∧
    ((parsePolicyIntoPages c5content).map (fun ch => ch.content.data)).flatten
      ≠ c5content.data := by decide

/-- C5 (amended): with no marker, segmentation returns the whole content as
one chunk labelled '1'; with markers, it returns exactly one chunk per
marker, labelled "N of M" from the marker's digits, with adjacent
non-overlapping spans starting at the marker indices — and the chunk texts
concatenate to the content from the FIRST MARKER to the end: any text
before the first marker belongs to no chunk. -/
theorem C5_segmentation (content : String) :
    (scanMarkers content.data = [] →
      parsePolicyIntoPages content
        = [{ pageNumber := "1", content := content, startIndex := 0 }]) ∧
    (∀ (p : Nat) (d1 d2 : List Char) (rest : List (Nat × List Char × List Char)),
      scanMarkers content.data = (p, d1, d2) :: rest →
      (parsePolicyIntoPages content).length = (scanMarkers content.data).length ∧
      (parsePolicyIntoPages content).map (fun ch => ch.pageNumber)
        = (scanMarkers content.data).map (fun m => labelOf m.2.1 m.2.2) ∧
      (parsePolicyIntoPages content).map (fun ch => ch.startIndex)
        = (scanMarkers content.data).map (fun m => m.1) ∧
      List.Chain' (fun a b => a.startIndex + a.content.data.length = b.startIndex)
        (parsePolicyIntoPages content) ∧
      ((parsePolicyIntoPages content).map (fun ch => ch.content.data)).flatten
        = content.data.drop p) := by
  constructor
  · intro hms
    unfold parsePolicyIntoPages
    rw [hms]
    rfl
  · intro p d1 d2 rest hms
    have hbnd : ∀ m ∈ scanMarkers content.data, m.1 < content.data.length := by
      intro m hm
      have := scanMarkersFuel_bounds content.data.length content.data 0 m hm
      omega
    have hchain : List.Chain' (fun a b => a.1 < b.1) (scanMarkers content.data) :=
      scanMarkersFuel_chain content.data.length content.data 0
    have hparse : parsePolicyIntoPages content = buildChunks content.data (scanMarkers content.data) := by
      unfold parsePolicyIntoPages
      rw [hms]
      rfl
    rw [hparse]
    refine ⟨buildChunks_length _ _, buildChunks_labels _ _, buildChunks_starts _ _,
      buildChunks_chain _ _ hchain hbnd, ?_⟩
    rw [hms]
    exact buildChunks_flatten content.data rest p d1 d2 (hms ▸ hchain) (hms ▸ hbnd)

/-- C5 witness: on c5content the chunk texts concatenate to the suffix from
the first marker at index 3. -/
theorem C5_witness :
    ((parsePolicyIntoPages c5content).map (fun ch => ch.content.data)).flatten
      = c5content.data.drop 3 := by
  have hms : scanMarkers c5content.data = [(3, ['1'], ['2']), (20, ['2'], ['2'])] := by decide
  exact ((C5_segmentation c5content).2 3 ['1'] ['2'] [(20, ['2'], ['2'])] hms).2.2.2.2

theorem confThreshold_pos : (0 : ℚ) < confThreshold := by decide

/-- The guard of processPolicy is false for content of at least 100
characters. -/
theorem guard_false_of_long (p : PolicyDocument) (hlen : 100 ≤ p.content.length) :
    (p.content.data.isEmpty || decide (p.content.length < 100)) = false := by
  have hdl : 100 ≤ p.content.data.length := hlen
  have h1 : p.content.data.isEmpty = false := by
    cases hd : p.content.data with
    | nil => rw [hd] at hdl; simp at hdl
    | cons a t => rfl
  rw [h1, decide_eq_false (by omega)]
  rfl

/-- A long document with a missing cache entry evaluates freshly. -/
theorem processPolicy_fresh (question : String) (o : Oracle) (now : Int)
    (p : PolicyDocument) (cache : Cache)
    (hlen : 100 ≤ p.content.length)
    (hmiss : cache (getCacheKey question p.id) = none) :
    processPolicy question o now p cache
      = processFresh question o now p (getCacheKey question p.id) := by
  unfold processPolicy
  rw [if_neg (by rw [guard_false_of_long p hlen]; exact Bool.false_ne_true)]
  simp only
  rw [hmiss]

/-- C6 counterexample: on the two-page document Alpha, an oracle whose page
"1 of 2" response is malformed makes the whole document evaluate to null
after a single call — the qualifying page 2 is never reached — while the
same oracle with page 1 merely answering a well-formed not-found reaches
page 2 and returns its match with two calls.  A malformed page response is
therefore not treated as "not found on this page": it aborts the document's
remaining pages. -/
theorem C6_counterexample :
    (processPolicy fixQ oC6mal 0 polA emptyCache).1 = none ∧
    (processPolicy fixQ oC6mal 0 polA emptyCache).2.2 = 1 ∧
    (processPolicy fixQ oC6nf 0 polA emptyCache).1.isSome = true ∧
    (processPolicy fixQ oC6nf 0 polA emptyCache).2.2 = 2 := by decide

/-- C6 (amended): a malformed (non-JSON-parsable) response for a page is
caught per document: the document's evaluation stops there, yields null
with nothing cached, and the remaining pages of THAT document are skipped —
but the containing search is not aborted: other candidate documents are
still evaluated and a match among them is returned as usual. -/
theorem C6_parse_failure (o : Oracle) (now : Int) (question : String) (cache0 : Cache)
    (pA2 pB2 : PolicyDocument) (ch : PageChunk) (chrest : List PageChunk)
    (m : PolicyDocument × CachedResult)
    (hlen : 100 ≤ pA2.content.length)
    (hmiss : cache0 (getCacheKey question pA2.id) = none)
    (hch : parsePolicyIntoPages pA2.content = ch :: chrest)
    (hmal : o.page question pA2.policy_name ch.pageNumber (truncatePage ch.content)
      = PageResponse.malformed)
    (hB : (processPolicy question o now pB2 cache0).1 = some m) :
    processPolicy question o now pA2 cache0 = (none, none, 1) ∧
    (searchPoliciesForEvidence o (fun _ => [pA2, pB2]) now question cache0).result
      = mkMetResult m := by
  have ha : processPolicy question o now pA2 cache0 = (none, none, 1) := by
    rw [processPolicy_fresh question o now pA2 cache0 hlen hmiss]
    unfold processFresh
    rw [hch, pageLoop, hmal]
  refine ⟨ha, ?_⟩
  rw [search_unfold]
  rw [if_neg (by simp)]
  have hchunks : chunksOf 25 [pA2, pB2] = [[pA2, pB2]] := rfl
  rw [hchunks, searchBatchLoop]
  have hres : (runBatch (fun p c => processPolicy question o now p c) [pA2, pB2] cache0).1
      = [none, some m] := by
    rw [runBatch_results]
    simp only [List.map_cons, List.map_nil]
    rw [congrArg (fun x => x.1) ha, hB]
  rw [hres]
  rfl

/-- C6 witness: with page responses malformed exactly for Alpha and
qualifying for Beta, the two-document search still answers met from Beta. -/
theorem C6_witness :
    (searchPoliciesForEvidence oC6w (fun _ => [polA, polBeta]) 0 fixQ emptyCache).result
      = mkMetResult (polBeta, mBeta) :=
  (C6_parse_failure oC6w 0 fixQ emptyCache polA polBeta
    ((parsePolicyIntoPages polA.content).headD { pageNumber := "", content := "", startIndex := 0 })
    ((parsePolicyIntoPages polA.content).tail)
    (polBeta, mBeta) (by decide) rfl (by decide) (by decide) (by decide)).2

/-- C8 counterexample: on the two-page Alpha with page 1 well-formed
not-found and page 2 malformed, the first Document Matcher invocation
issues 2 calls and caches nothing (the abort skips the write), so a second
invocation within the TTL window issues 2 calls again — more than the "at
most one" the claim allows. -/
theorem C8_counterexample :
    (processPolicy fixQ oC8bad 0 polA emptyCache).2.2 = 2 ∧
    (processPolicy fixQ oC8bad 0 polA emptyCache).2.1 = none ∧
    (processPolicy fixQ oC8bad 1000 polA
        (applyWrite emptyCache (processPolicy fixQ oC8bad 0 polA emptyCache).2.1)).2.2 = 2 ∧
    ¬ ((processPolicy fixQ oC8bad 1000 polA
        (applyWrite emptyCache (processPolicy fixQ oC8bad 0 polA emptyCache).2.1)).2.2 ≤ 1) := by
  decide

/-- C8 (amended): when the first Document Matcher invocation on a fresh key
is not aborted by a malformed response (it caches its outcome), a second
invocation with the same question and document within the TTL window issues
zero Inference Service calls and returns the first invocation's verdict
from the cache; and the cache key depends only on the document id and the
case-normalized, trimmed 100-character question prefix, so questions
agreeing on that prefix share the entry for a given document.  (A first
invocation aborted by a parse failure caches nothing — C8_counterexample —
which is what forces the no-abort hypothesis.) -/
theorem C8_cache (o : Oracle) (question : String) (p : PolicyDocument) (cache0 : Cache)
    (now1 now2 : Int)
    (hmiss : cache0 (getCacheKey question p.id) = none)
    (hfresh : now2 - now1 < CACHE_TTL)
    (hwf : ∀ label pc, o.page question p.policy_name label pc ≠ PageResponse.malformed) :
    ((processPolicy question o now2 p
        (applyWrite cache0 (processPolicy question o now1 p cache0).2.1)).2.2 = 0) ∧
    ((processPolicy question o now2 p
        (applyWrite cache0 (processPolicy question o now1 p cache0).2.1)).1
      = (processPolicy question o now1 p cache0).1) ∧
    (∀ q2 : String,
      jsTrim (jsToLower (jsTake 100 q2)) = jsTrim (jsToLower (jsTake 100 question)) →
      getCacheKey q2 p.id = getCacheKey question p.id) := by
  have hkeypart : ∀ q2 : String,
      jsTrim (jsToLower (jsTake 100 q2)) = jsTrim (jsToLower (jsTake 100 question)) →
      getCacheKey q2 p.id = getCacheKey question p.id := by
    intro q2 hpre
    unfold getCacheKey
    rw [hpre]
  by_cases hlen : 100 ≤ p.content.length
  · rw [processPolicy_fresh question o now1 p cache0 hlen hmiss]
    cases hpl : pageLoop question o now1 p (parsePolicyIntoPages p.content) 0 with
    | aborted n => exact absurd hpl (pageLoop_no_abort question o now1 p hwf _ _ _)
    | found r n =>
      have hfr : processFresh question o now1 p (getCacheKey question p.id)
          = (some (p, r), some (getCacheKey question p.id, r), n) := by
        unfold processFresh
        rw [hpl]
      rw [hfr]
      obtain ⟨hfound, hconf, htime, -⟩ := pageLoop_found_spec question o now1 p _ _ _ _ hpl
      have hcget : (applyWrite cache0 (some (getCacheKey question p.id, r)))
          (getCacheKey question p.id) = some r := by
        show (if getCacheKey question p.id = getCacheKey question p.id
            then some r else cache0 (getCacheKey question p.id)) = some r
        rw [if_pos rfl]
      have hq : (r.found && cachedConfPasses r.confidence) = true := by
        rw [hfound, Bool.true_and]
        cases hc : r.confidence with
        | none =>
          rw [hc] at hconf
          simp [confPasses] at hconf
        | some c =>
          rw [hc] at hconf
          simp only [confPasses] at hconf
          have hlt : confThreshold < c := of_decide_eq_true hconf
          simp only [cachedConfPasses]
          rw [decide_eq_true hlt,
              decide_eq_false (fun h0 => absurd hlt
                (by rw [h0]; exact not_lt.mpr (le_of_lt confThreshold_pos)))]
          rfl
      have hsecond : processPolicy question o now2 p
          (applyWrite cache0 (some (getCacheKey question p.id, r)))
          = (some (p, r), none, 0) := by
        unfold processPolicy
        rw [if_neg (by rw [guard_false_of_long p hlen]; exact Bool.false_ne_true)]
        simp only
        rw [hcget]
        simp only
        rw [htime, if_pos hfresh, if_pos hq]
      rw [hsecond]
      exact ⟨rfl, rfl, hkeypart⟩
    | exhausted n =>
      have hfr : processFresh question o now1 p (getCacheKey question p.id)
          = (none,
             some (getCacheKey question p.id,
               ({ found := false, excerpt := none, confidence := none, reasoning := none,
                  pageNumber := none, timestamp := now1 } : CachedResult)),
             n) := by
        unfold processFresh
        rw [hpl]
      rw [hfr]
      have hcget : (applyWrite cache0 (some (getCacheKey question p.id,
          ({ found := false, excerpt := none, confidence := none, reasoning := none,
             pageNumber := none, timestamp := now1 } : CachedResult))))
          (getCacheKey question p.id)
          = some ({ found := false, excerpt := none, confidence := none, reasoning := none,
                    pageNumber := none, timestamp := now1 } : CachedResult) := by
        show (if getCacheKey question p.id = getCacheKey question p.id
            then some ({ found := false, excerpt := none, confidence := none, reasoning := none,
                         pageNumber := none, timestamp := now1 } : CachedResult)
            else cache0 (getCacheKey question p.id))
          = some ({ found := false, excerpt := none, confidence := none, reasoning := none,
                    pageNumber := none, timestamp := now1 } : CachedResult)
        rw [if_pos rfl]
      have hsecond : processPolicy question o now2 p
          (applyWrite cache0 (some (getCacheKey question p.id,
            ({ found := false, excerpt := none, confidence := none, reasoning := none,
               pageNumber := none, timestamp := now1 } : CachedResult))))
          = (none, none, 0) := by
        unfold processPolicy
        rw [if_neg (by rw [guard_false_of_long p hlen]; exact Bool.false_ne_true)]
        simp only
        rw [hcget]
        simp only
        rw [if_pos hfresh]
        rw [if_neg (by simp)]
      rw [hsecond]
      exact ⟨rfl, rfl, hkeypart⟩
  · have hg : (p.content.data.isEmpty || decide (p.content.length < 100)) = true := by
      rw [decide_eq_true (by omega)]
      simp
    have e1 : processPolicy question o now1 p cache0 = (none, none, 0) := by
      unfold processPolicy
      rw [if_pos hg]
    have e2 : processPolicy question o now2 p cache0 = (none, none, 0) := by
      unfold processPolicy
      rw [if_pos hg]
    rw [e1]
    exact ⟨congrArg (fun t => t.2.2) e2, (congrArg (fun t => t.1) e2).trans rfl, hkeypart⟩

/-- C8 witness: first fresh evaluation of (fixQ, polB), then a second one
1000 ms later answered from the cache with zero calls and the same verdict;
and "ARE URGENT..." shares polB's cache key with fixQ. -/
theorem C8_witness :
    (processPolicy fixQ oGood 1000 polB
        (applyWrite emptyCache (processPolicy fixQ oGood 0 polB emptyCache).2.1)).2.2 = 0 ∧
    (processPolicy fixQ oGood 1000 polB
        (applyWrite emptyCache (processPolicy fixQ oGood 0 polB emptyCache).2.1)).1
      = (processPolicy fixQ oGood 0 polB emptyCache).1 :=
  ⟨(C8_cache oGood fixQ polB emptyCache 0 1000 rfl (by decide)
      (fun label pc h => PageResponse.noConfusion h)).1,
   (C8_cache oGood fixQ polB emptyCache 0 1000 rfl (by decide)
      (fun label pc h => PageResponse.noConfusion h)).2.1⟩

/-- C2: batching and scanning with any per-document verdict assignment and
any completion order per batch (a permutation of batch positions) yields
exactly the stateless batch loop's result, which is the met-result of the
EARLIEST document in candidate order with a qualifying verdict (not-met
when there is none): the chosen first match depends only on document
position, never on which concurrent call completes first. -/
theorem C2_order_stable (eval : PolicyDocument → Option (PolicyDocument × CachedResult))
    (policies : List PolicyDocument) (scheds : Nat → List Nat) (cache0 : Cache)
    (hv : ∀ j batch, (chunksOf 25 policies).get? j = some batch →
      (scheds j).Perm (List.range batch.length)) :
    scanSched eval scheds (chunksOf 25 policies) 0
      = (searchBatchLoop (fun p _ => (eval p, none, 0)) (chunksOf 25 policies) cache0 0 0).result ∧
    scanSched eval scheds (chunksOf 25 policies) 0
      = (match policies.findSome? (fun p => eval p) with
         | some m => mkMetResult m
         | none => { status := SearchStatus.notMet, evidence := none }) := by
  have hs := scanSched_eq eval scheds (chunksOf 25 policies) 0
    (fun j batch h => by rw [Nat.zero_add]; exact hv j batch h)
  have hl := searchBatchLoop_stateless eval (chunksOf 25 policies) cache0 0 0
  rw [chunksOf_flatten 25 policies (by omega)] at hs hl
  exact ⟨hs.trans hl.symm, hs⟩

/-- C2 witness: two candidates that both match, with the later one
completing first (schedule [1, 0]); the reported evidence is still the
earlier document's. -/
theorem C2_witness :
    scanSched evalBoth schedRev (chunksOf 25 [polA, polB]) 0 = mkMetResult (polA, mBeta) := by
  have hv : ∀ j batch, (chunksOf 25 [polA, polB]).get? j = some batch →
      (schedRev j).Perm (List.range batch.length) := by
    intro j batch h
    have hc : chunksOf 25 [polA, polB] = [[polA, polB]] := rfl
    rw [hc] at h
    cases j with
    | zero =>
      rw [List.get?_cons_zero] at h
      injection h with h2
      subst h2
      decide
    | succ k =>
      rw [List.get?_cons_succ] at h
      simp at h
  exact ((C2_order_stable evalBoth [polA, polB] schedRev emptyCache hv).2).trans (by decide)

theorem processFresh_good (question : String) (o : Oracle) (now : Int)
    (p : PolicyDocument) (k : String)
    (horacle : ∀ label pc v, o.page question p.policy_name label pc = PageResponse.parsed v →
      (v.found && confPasses v.confidence) = true →
      ∃ s : String, v.excerpt = some s ∧ s.data ≠ [] ∧ s.length ≤ 250 ∧
        containsSeq s.data p.content.data = true) :
    (∀ m, (processFresh question o now p k).1 = some m → GoodExcerpt p m.2) ∧
    (∀ k2 v, (processFresh question o now p k).2.1 = some (k2, v) →
      k2 = k ∧ (v.found = true → GoodExcerpt p v)) := by
  unfold processFresh
  cases hpl : pageLoop question o now p (parsePolicyIntoPages p.content) 0 with
  | found r n =>
    obtain ⟨-, -, -, ch, -, v, hresp, hqv, hex, -, -⟩ :=
      pageLoop_found_spec question o now p _ _ _ _ hpl
    obtain ⟨s, hs1, hs2, hs3, hs4⟩ := horacle _ _ v hresp hqv
    have hgood : GoodExcerpt p r := ⟨s, by rw [hex, hs1], hs2, hs3, hs4⟩
    constructor
    · intro m hm
      injection hm with hm2
      rw [← hm2]
      exact hgood
    · intro k2 v2 hv2
      injection hv2 with hv3
      injection hv3 with h1 h2
      exact ⟨h1.symm, fun _ => h2 ▸ hgood⟩
  | exhausted n =>
    constructor
    · intro m hm; cases hm
    · intro k2 v2 hv2
      injection hv2 with hv3
      injection hv3 with h1 h2
      refine ⟨h1.symm, fun hf => ?_⟩
      rw [← h2] at hf
      cases hf
  | aborted n =>
    constructor
    · intro m hm; cases hm
    · intro k2 v2 hv2; cases hv2

theorem processPolicy_good (question : String) (o : Oracle) (now : Int)
    (P : List PolicyDocument) (p : PolicyDocument) (hp : p ∈ P) (cache : Cache)
    (hinv : CacheInv question P cache)
    (horacle : ∀ label pc v, o.page question p.policy_name label pc = PageResponse.parsed v →
      (v.found && confPasses v.confidence) = true →
      ∃ s : String, v.excerpt = some s ∧ s.data ≠ [] ∧ s.length ≤ 250 ∧
        containsSeq s.data p.content.data = true) :
    (∀ m, (processPolicy question o now p cache).1 = some m → GoodExcerpt p m.2) ∧
    (∀ k2 v, (processPolicy question o now p cache).2.1 = some (k2, v) →
      k2 = getCacheKey question p.id ∧ (v.found = true → GoodExcerpt p v)) := by
  unfold processPolicy
  by_cases hg : (p.content.data.isEmpty || decide (p.content.length < 100)) = true
  · rw [if_pos hg]
    exact ⟨(fun m hm => nomatch hm), (fun k2 v2 hv2 => nomatch hv2)⟩
  · rw [if_neg hg]
    simp only
    cases hc : cache (getCacheKey question p.id) with
    | some cached =>
      simp only
      by_cases hfr : now - cached.timestamp < CACHE_TTL
      · rw [if_pos hfr]
        by_cases hok : (cached.found && cachedConfPasses cached.confidence) = true
        · rw [if_pos hok]
          constructor
          · intro m hm
            injection hm with hm2
            rw [← hm2]
            exact hinv p hp cached hc (bandSplit hok).1
          · intro k2 v2 hv2; cases hv2
        · rw [if_neg hok]
          exact ⟨(fun m hm => nomatch hm), (fun k2 v2 hv2 => nomatch hv2)⟩
      · rw [if_neg hfr]
        exact processFresh_good question o now p _ horacle
    | none =>
      exact processFresh_good question o now p _ horacle

theorem applyWrite_inv (question : String) (P : List PolicyDocument)
    (hinj : ∀ p ∈ P, ∀ p2 ∈ P,
      getCacheKey question p.id = getCacheKey question p2.id → p = p2)
    (cache : Cache) (hinv : CacheInv question P cache)
    (w : Option (String × CachedResult))
    (hw : w = none ∨ ∃ p2 ∈ P, ∃ v, w = some (getCacheKey question p2.id, v) ∧
      (v.found = true → GoodExcerpt p2 v)) :
    CacheInv question P (applyWrite cache w) := by
  rcases hw with rfl | ⟨p2, hp2, v, rfl, hv⟩
  · exact hinv
  · intro p hp r hr hf
    by_cases he : getCacheKey question p.id = getCacheKey question p2.id
    · have hpp : p = p2 := hinj p hp p2 hp2 he
      subst hpp
      have h2 : (applyWrite cache (some (getCacheKey question p.id, v)))
          (getCacheKey question p.id) = some v := by
        show (if getCacheKey question p.id = getCacheKey question p.id
            then some v else cache (getCacheKey question p.id)) = some v
        rw [if_pos rfl]
      rw [h2] at hr
      injection hr with hr2
      rw [← hr2] at hf ⊢
      exact hv hf
    · have h2 : (applyWrite cache (some (getCacheKey question p2.id, v)))
          (getCacheKey question p.id) = cache (getCacheKey question p.id) := by
        show (if getCacheKey question p.id = getCacheKey question p2.id
            then some v else cache (getCacheKey question p.id)) = _
        rw [if_neg he]
      rw [h2] at hr
      exact hinv p hp r hr hf

theorem foldl_writes_inv (question : String) (P : List PolicyDocument)
    (hinj : ∀ p ∈ P, ∀ p2 ∈ P,
      getCacheKey question p.id = getCacheKey question p2.id → p = p2) :
    ∀ (outs : List (Option (PolicyDocument × CachedResult) ×
        Option (String × CachedResult) × Nat)),
      (∀ out ∈ outs, out.2.1 = none ∨ ∃ p2 ∈ P, ∃ v,
        out.2.1 = some (getCacheKey question p2.id, v) ∧
        (v.found = true → GoodExcerpt p2 v)) →
      ∀ cache, CacheInv question P cache →
      CacheInv question P (outs.foldl (fun c out => applyWrite c out.2.1) cache) := by
  intro outs
  induction outs with
  | nil => intro _ cache hinv; exact hinv
  | cons out rest ih =>
    intro hsh cache hinv
    rw [List.foldl_cons]
    exact ih (fun x hx => hsh x (List.mem_cons_of_mem _ hx))
      (applyWrite cache out.2.1)
      (applyWrite_inv question P hinj cache hinv out.2.1
        (hsh out (List.mem_cons_self _ _)))

theorem runBatch_inv (question : String) (o : Oracle) (now : Int)
    (P : List PolicyDocument)
    (hinj : ∀ p ∈ P, ∀ p2 ∈ P,
      getCacheKey question p.id = getCacheKey question p2.id → p = p2)
    (horacleP : ∀ p ∈ P, ∀ label pc v,
      o.page question p.policy_name label pc = PageResponse.parsed v →
      (v.found && confPasses v.confidence) = true →
      ∃ s : String, v.excerpt = some s ∧ s.data ≠ [] ∧ s.length ≤ 250 ∧
        containsSeq s.data p.content.data = true)
    (batch : List PolicyDocument) (hbatch : ∀ p ∈ batch, p ∈ P)
    (cache : Cache) (hinv : CacheInv question P cache) :
    CacheInv question P
      (runBatch (fun p c => processPolicy question o now p c) batch cache).2.1 := by
  unfold runBatch
  apply foldl_writes_inv question P hinj _ _ cache hinv
  intro out hout
  obtain ⟨p, hpmem, hpeq⟩ := List.mem_map.mp hout
  cases hw : out.2.1 with
  | none => exact Or.inl rfl
  | some kv =>
    obtain ⟨k2, v2⟩ := kv
    have hpeq2 : processPolicy question o now p cache = out := hpeq
    have hgood := (processPolicy_good question o now P p (hbatch p hpmem) cache hinv
      (horacleP p (hbatch p hpmem))).2 k2 v2 (by rw [hpeq2]; exact hw)
    exact Or.inr ⟨p, hbatch p hpmem, v2, by rw [hgood.1], hgood.2⟩

theorem searchBatchLoop_good (question : String) (o : Oracle) (now : Int)
    (P : List PolicyDocument)
    (hinj : ∀ p ∈ P, ∀ p2 ∈ P,
      getCacheKey question p.id = getCacheKey question p2.id → p = p2)
    (horacleP : ∀ p ∈ P, ∀ label pc v,
      o.page question p.policy_name label pc = PageResponse.parsed v →
      (v.found && confPasses v.confidence) = true →
      ∃ s : String, v.excerpt = some s ∧ s.data ≠ [] ∧ s.length ≤ 250 ∧
        containsSeq s.data p.content.data = true) :
    ∀ (batches : List (List PolicyDocument)),
      (∀ b ∈ batches, ∀ p ∈ b, p ∈ P) →
      ∀ (cache : Cache), CacheInv question P cache → ∀ (calls searched : Nat),
      (searchBatchLoop (fun p c => processPolicy question o now p c)
          batches cache calls searched).result
        = { status := SearchStatus.notMet, evidence := none } ∨
      ∃ m, m.1 ∈ P ∧ GoodExcerpt m.1 m.2 ∧
        (searchBatchLoop (fun p c => processPolicy question o now p c)
          batches cache calls searched).result = mkMetResult m := by
  intro batches
  induction batches with
  | nil => intro _ cache _ calls searched; exact Or.inl rfl
  | cons batch rest ih =>
    intro hmem cache hinv calls searched
    rw [searchBatchLoop]
    cases hfs : List.findSome? id
        (runBatch (fun p c => processPolicy question o now p c) batch cache).1 with
    | some m =>
      simp only
      obtain ⟨x, hx, hxm⟩ := List.exists_of_findSome?_eq_some hfs
      rw [runBatch_results] at hx
      obtain ⟨p, hpmem, hpx⟩ := List.mem_map.mp hx
      have hstep : (processPolicy question o now p cache).1 = some m :=
        hpx.trans (by simpa using hxm)
      have hpP : p ∈ P := hmem batch (List.mem_cons_self _ _) p hpmem
      have hm1 : m.1 = p := (processPolicy_pos question o now p cache m hstep).1
      have hgood := (processPolicy_good question o now P p hpP cache hinv
        (horacleP p hpP)).1 m hstep
      exact Or.inr ⟨m, by rw [hm1]; exact hpP, by rw [hm1]; exact hgood, rfl⟩
    | none =>
      simp only
      exact ih (fun b hb => hmem b (List.mem_cons_of_mem _ hb))
        (runBatch (fun p c => processPolicy question o now p c) batch cache).2.1
        (runBatch_inv question o now P hinj horacleP batch
          (hmem batch (List.mem_cons_self _ _)) cache hinv)
        (calls + (runBatch (fun p c => processPolicy question o now p c) batch cache).2.2)
        (searched + batch.length)

theorem mkMetResult_excerpt (m : PolicyDocument × CachedResult) (s : String)
    (hex : m.2.excerpt = some s) (hne : s.data ≠ []) :
    ∃ e, (mkMetResult m).evidence = some e ∧ e.excerpt = s := by
  refine ⟨_, rfl, ?_⟩
  show (match m.2.excerpt with
    | some s2 => if jsIsEmpty s2 = true then "Evidence found in policy document" else s2
    | none => "Evidence found in policy document") = s
  rw [hex]
  have hemp : jsIsEmpty s = false := by
    unfold jsIsEmpty
    cases hd : s.data with
    | nil => exact absurd hd hne
    | cons a t => simp
  simp [hemp]

/-- C7 counterexample: the engine copies the inference response's excerpt
into the evidence without any verification — an oracle answering with a
qualifying verdict whose excerpt appears nowhere in the document still
produces a met result carrying that fabricated excerpt. -/
theorem C7_counterexample :
    (searchPoliciesForEvidence oFab (fun _ => [polB]) 0 fixQ emptyCache).result.status
      = SearchStatus.met ∧
    ((searchPoliciesForEvidence oFab (fun _ => [polB]) 0 fixQ emptyCache).result.evidence.map
      (fun e => e.excerpt)) = some "THIS TEXT IS FABRICATED" ∧
    containsSeq "THIS TEXT IS FABRICATED".data polB.content.data = false := by decide

/-- C7 (amended): whenever the batch procession yields any match the result
is met; and PROVIDED the Inference Service only ever returns qualifying
verdicts whose excerpt is a non-empty verbatim substring of the document
at hand of at most 250 characters, and the starting cache likewise holds
only such excerpts (hypotheses the code never checks, which is what the
counterexample exploits), the met result's excerpt is such a verbatim
substring of some candidate document's content.  Distinct cache keys per
candidate are assumed so that one candidate's cache entry cannot serve
another. -/
theorem C7_excerpt (o : Oracle) (store : List String → List PolicyDocument)
    (now : Int) (question : String) (cache0 : Cache)
    (hkeys : ((store (selectRelevantCategories (o.category question))).map
        (fun p => getCacheKey question p.id)).Nodup)
    (hcache0 : CacheInv question (store (selectRelevantCategories (o.category question))) cache0)
    (horacle : ∀ p ∈ store (selectRelevantCategories (o.category question)),
      ∀ label pc v, o.page question p.policy_name label pc = PageResponse.parsed v →
      (v.found && confPasses v.confidence) = true →
      ∃ s : String, v.excerpt = some s ∧ s.data ≠ [] ∧ s.length ≤ 250 ∧
        containsSeq s.data p.content.data = true) :
    (store (selectRelevantCategories (o.category question)) ≠ [] →
      ¬ (∀ r ∈ runAllBatches (fun p c => processPolicy question o now p c)
            (chunksOf 25 (store (selectRelevantCategories (o.category question)))) cache0,
          r = none) →
      (searchPoliciesForEvidence o store now question cache0).result.status
        = SearchStatus.met) ∧
    ((searchPoliciesForEvidence o store now question cache0).result.status = SearchStatus.met →
      ∃ e : PolicyMatch,
        (searchPoliciesForEvidence o store now question cache0).result.evidence = some e ∧
        ∃ p ∈ store (selectRelevantCategories (o.category question)),
          e.excerpt.data ≠ [] ∧ e.excerpt.length ≤ 250 ∧
          containsSeq e.excerpt.data p.content.data = true) := by
  have hinj : ∀ p ∈ store (selectRelevantCategories (o.category question)),
      ∀ p2 ∈ store (selectRelevantCategories (o.category question)),
      getCacheKey question p.id = getCacheKey question p2.id → p = p2 :=
    fun p hp p2 hp2 he => List.inj_on_of_nodup_map hkeys hp hp2 he
  constructor
  · intro hne hnm
    rw [search_unfold]
    have h0 : ¬ (store (selectRelevantCategories (o.category question))).length = 0 :=
      fun h => hne (List.length_eq_zero.mp h)
    rw [if_neg h0]
    rcases searchBatchLoop_cases (fun p c => processPolicy question o now p c)
        (chunksOf 25 (store (selectRelevantCategories (o.category question)))) cache0 0 0 with
      hres | ⟨p, hp, c2, m, hm, hres⟩
    · exfalso
      apply hnm
      rw [← searchBatchLoop_notMet_iff]
      rw [hres]
    · show (searchBatchLoop (fun p c => processPolicy question o now p c)
          (chunksOf 25 (store (selectRelevantCategories (o.category question))))
          cache0 0 0).result.status = SearchStatus.met
      rw [hres]
      rfl
  · intro hmet
    rw [search_unfold] at hmet ⊢
    by_cases h0 : (store (selectRelevantCategories (o.category question))).length = 0
    · rw [if_pos h0] at hmet
      cases hmet
    · rw [if_neg h0] at hmet ⊢
      have hmem : ∀ b ∈ chunksOf 25 (store (selectRelevantCategories (o.category question))),
          ∀ p ∈ b, p ∈ store (selectRelevantCategories (o.category question)) := by
        intro b hb p hp
        have : p ∈ (chunksOf 25 (store (selectRelevantCategories (o.category question)))).flatten :=
          List.mem_flatten.mpr ⟨b, hb, hp⟩
        rwa [chunksOf_flatten 25 _ (by omega)] at this
      rcases searchBatchLoop_good question o now
          (store (selectRelevantCategories (o.category question))) hinj horacle
          (chunksOf 25 (store (selectRelevantCategories (o.category question)))) hmem
          cache0 hcache0 0 0 with
        hres | ⟨m, hmP, hgood, hres⟩
      · exfalso
        have : (searchBatchLoop (fun p c => processPolicy question o now p c)
            (chunksOf 25 (store (selectRelevantCategories (o.category question))))
            cache0 0 0).result.status = SearchStatus.met := hmet
        rw [hres] at this
        cases this
      · obtain ⟨s, hex, hsne, hslen, hsctn⟩ := hgood
        obtain ⟨e, hev, hexq⟩ := mkMetResult_excerpt m s hex hsne
        refine ⟨e, ?_, m.1, hmP, ?_, ?_, ?_⟩
        · show (searchBatchLoop (fun p c => processPolicy question o now p c)
              (chunksOf 25 (store (selectRelevantCategories (o.category question))))
              cache0 0 0).result.evidence = some e
          rw [hres]
          exact hev
        · rw [hexq]; exact hsne
        · rw [hexq]; exact hslen
        · rw [hexq]; exact hsctn

/-- C7 witness: with an oracle whose excerpt is a verbatim 22-character
substring of polB's content, the search is met and the theorem yields that
verbatim excerpt. -/
theorem C7_witness :
    ∃ e : PolicyMatch,
      (searchPoliciesForEvidence oGood (fun _ => [polB]) 0 fixQ emptyCache).result.evidence
        = some e ∧
      ∃ p ∈ [polB], e.excerpt.data ≠ [] ∧ e.excerpt.length ≤ 250 ∧
        containsSeq e.excerpt.data p.content.data = true :=
  (C7_excerpt oGood (fun _ => [polB]) 0 fixQ emptyCache (by decide)
    (fun p hp r hr => nomatch hr)
    (by
      intro p hp label pc v hv hq
      have hpB : p = polB := List.mem_singleton.mp hp
      injection hv with hv2
      subst hpB
      rw [← hv2]
      exact ⟨"seventy-two (72) hours", rfl, by decide, by decide, by decide⟩)).2 (by decide)

end PolicySearch
